import Mathlib

/-!
Verification of the Scrivener project-store core: a shallow embedding of
`scrivener_mcp/scrivener/{rtf.py, binder.py, project.py}` together with
proofs of the specified properties.

Filesystem state is modelled as an association list from path strings to
file contents; directories are implicit (creating a directory is a no-op
in the model).  Clock and UUID-generator effects are modelled as explicit
string inputs to the operations that consume them.
-/

set_option maxRecDepth 4000

namespace Scriv

/-- Python whitespace set used by `str.strip` / `str.split` (ASCII part). -/
def pyIsSpace (c : Char) : Bool :=
  c = ' ' || c = '\t' || c = '\n' || c = '\x0d' || c = '\x0b' || c = '\x0c'

/-- Python `str.strip()` (on the ASCII whitespace set): drop leading and
trailing whitespace characters. -/
def pyStrip (s : String) : String :=
  ⟨((s.data.dropWhile pyIsSpace).reverse.dropWhile pyIsSpace).reverse⟩

/-- One pass of Python `str.replace`: replace every non-overlapping
occurrence of `pat` left to right.  `fuel` bounds the recursion by the
length of the subject string (each step consumes at least one character
whenever `pat` is nonempty; callers never pass an empty pattern). -/
def replFuel : Nat → List Char → List Char → List Char → List Char
  | 0, s, _, _ => s
  | _ + 1, [], _, _ => []
  | fuel + 1, c :: cs, pat, rep =>
    if pat ≠ [] && pat.isPrefixOf (c :: cs) then
      rep ++ replFuel fuel ((c :: cs).drop pat.length) pat rep
    else
      c :: replFuel fuel cs pat rep

/-- Python `s.replace(pat, rep)` for nonempty `pat`. -/
def pyReplace (s pat rep : String) : String :=
  ⟨replFuel s.data.length s.data pat.data rep.data⟩

/-- The fixed RTF header emitted by `text_to_rtf` (source lines 14-20).
Braces are written with `\x7b` / `\x7d` escapes. -/
def rtfHeader : String :=
  "\x7b\\rtf1\\ansi\\ansicpg1252\\cocoartf2761\\cocoatextscaling0\\cocoaplatform0" ++
  "\x7b\\fonttbl\\f0\\fswiss\\fcharset0 Helvetica;\x7d" ++
  "\x7b\\colortbl;\\red255\\green255\\blue255;\x7d" ++
  "\\margl1440\\margr1440\\vieww11520\\viewh8400\\viewkind0" ++
  "\\pard\\tx720\\tx1440\\tx2160\\tx2880\\tx3600\\tx4320\\tx5040\\tx5760\\tx6480\\tx7200\\tx7920\\tx8640\\pardirnatural\\partightenfactor0" ++
  "\n" ++
  "\\f0\\fs24 \\cf0 "

/-- `rtf.text_to_rtf` (source lines 8-34): escape the three structurally
significant characters, then rewrite double newlines to paragraph-break
markers and the remaining newlines to line-break markers.  Note that the
two newline rewrites are successive whole-string `str.replace` passes, so
the second pass also rewrites the newline that terminates each
just-inserted paragraph marker. -/
def text_to_rtf (text : String) : String :=
  let e1 := pyReplace text "\\" "\\\\"
  let e2 := pyReplace e1 "\x7b" "\\\x7b"
  let e3 := pyReplace e2 "\x7d" "\\\x7d"
  let e4 := pyReplace e3 "\n\n" "\\par\\par\n"
  let e5 := pyReplace e4 "\n" "\\line\n"
  rtfHeader ++ e5 ++ "\x7d"

/-- Modelled from the spec: the plain-text extraction core of the external
`striprtf.rtf_to_text` decoder (the decoder is a third-party library, not
part of this repository's sources).  Per spec §4.1 the decoder parses the
markup and recovers the plain text: an escaped backslash or brace yields
the literal character, a `\par` or `\line` control word yields a line
break, raw newlines in the markup are layout only and yield nothing, and
every other character is text. -/
def rtfTokens : List Char → List Char
  | [] => []
  | '\\' :: '\\' :: rest => '\\' :: rtfTokens rest
  | '\\' :: '\x7b' :: rest => '\x7b' :: rtfTokens rest
  | '\\' :: '\x7d' :: rest => '\x7d' :: rtfTokens rest
  | '\\' :: 'p' :: 'a' :: 'r' :: rest => '\n' :: rtfTokens rest
  | '\\' :: 'l' :: 'i' :: 'n' :: 'e' :: rest => '\n' :: rtfTokens rest
  | '\n' :: rest => rtfTokens rest
  | c :: rest => c :: rtfTokens rest

/-- Modelled from the spec: the external structured-text decoder
(`striprtf.rtf_to_text`), restricted to this codec's own envelope.  It
strips the fixed envelope (the header emitted by `text_to_rtf` and the
closing brace), extracts the plain text from the markup in between, and
fails (`CodecFailure`) on input that does not carry the envelope. -/
def rtf_to_text (s : String) : Except Unit String :=
  if rtfHeader.data.isPrefixOf s.data && s.data.getLast? = some '\x7d' then
    .ok ⟨rtfTokens ((s.data.drop rtfHeader.data.length).dropLast)⟩
  else
    .error ()

/-- The filesystem: an association list from path strings to file
contents; a later write for the same path shadows earlier entries. -/
def FS : Type := List (String × String)

def FS.lookup (fs : FS) (p : String) : Option String :=
  match fs with
  | [] => none
  | (q, v) :: rest => if q = p then some v else FS.lookup rest p

def FS.write (fs : FS) (p v : String) : FS :=
  (p, v) :: fs

/-- `rtf.read_rtf` (source lines 37-54) over the filesystem model: a
missing file yields empty text, a whitespace-only file yields empty text,
a decode failure is absorbed and yields empty text, and a successful
decode is returned stripped. -/
def read_rtf (fs : FS) (p : String) : String :=
  match fs.lookup p with
  | none => ""
  | some content =>
    if pyStrip content = "" then ""
    else
      match rtf_to_text content with
      | .ok text => pyStrip text
      | .error _ => ""

/-- Python `str.split()` with no separator: the maximal nonwhitespace
runs, left to right (`cur` accumulates the current run reversed). -/
def wsSplitAux : List Char → List Char → List (List Char)
  | cur, [] => if cur = [] then [] else [cur.reverse]
  | cur, c :: cs =>
    if pyIsSpace c then
      if cur = [] then wsSplitAux [] cs else cur.reverse :: wsSplitAux [] cs
    else wsSplitAux (c :: cur) cs

/-- `rtf.count_words` (source lines 57-61): `len(text.split())`, the
number of maximal nonwhitespace runs. -/
def count_words (text : String) : Nat :=
  if text = "" then 0
  else (wsSplitAux [] text.data).length

/-- Python `str.split("\n")`: split on newlines, keeping empty pieces. -/
def splitNl : List Char → List (List Char)
  | [] => [[]]
  | c :: cs =>
    if c = '\n' then [] :: splitNl cs
    else
      match splitNl cs with
      | [] => [[c]]
      | l :: ls => (c :: l) :: ls

def pySplitNl (s : String) : List String :=
  (splitNl s.data).map (fun l => ⟨l⟩)

/-- Python `str.lower()` (ASCII case fold, characterwise). -/
def lowerStr (s : String) : String :=
  ⟨s.data.map Char.toLower⟩

end Scriv

namespace Scriv

/-! ### The XML index model (`xml.etree.ElementTree` fragment)

An element carries a tag, an ordered attribute list, optional text, and an
ordered list of child elements.  Indentation whitespace written by
`_indent_xml` only touches the `text`/`tail` of elements that have
children, none of which the binder parser reads, so the model omits it. -/

mutual
inductive XElem where
  | mk (tag : String) (attrs : List (String × String)) (text : Option String) (children : XElems)
deriving DecidableEq
inductive XElems where
  | nil
  | cons (e : XElem) (es : XElems)
deriving DecidableEq
end

def XElem.tag : XElem → String
  | .mk t _ _ _ => t

def XElem.attrs : XElem → List (String × String)
  | .mk _ a _ _ => a

def XElem.text : XElem → Option String
  | .mk _ _ x _ => x

def XElem.children : XElem → XElems
  | .mk _ _ _ cs => cs

/-- Attribute lookup (`Element.get`). -/
def attrGet (attrs : List (String × String)) (k : String) : Option String :=
  match attrs with
  | [] => none
  | (k', v) :: rest => if k' = k then some v else attrGet rest k

def XElem.get (e : XElem) (k : String) : Option String :=
  attrGet e.attrs k

/-- `Element.set`: replace the value when the key exists, else append. -/
def attrSet (attrs : List (String × String)) (k v : String) : List (String × String) :=
  match attrs with
  | [] => [(k, v)]
  | (k', v') :: rest => if k' = k then (k, v) :: rest else (k', v') :: attrSet rest k v

def XElem.setAttr (e : XElem) (k v : String) : XElem :=
  match e with
  | .mk t a x cs => .mk t (attrSet a k v) x cs

/-- `Element.find(tag)`: first direct child carrying the tag. -/
def XElems.findTag : XElems → String → Option XElem
  | .nil, _ => none
  | .cons e es, t => if e.tag = t then some e else XElems.findTag es t

def XElem.find (e : XElem) (t : String) : Option XElem :=
  e.children.findTag t

def XElems.length : XElems → Nat
  | .nil => 0
  | .cons _ es => 1 + XElems.length es

/-- `list.insert(pos, e)` on element children (callers guard `pos < len`). -/
def XElems.insertAt : XElems → Nat → XElem → XElems
  | es, 0, ne => .cons ne es
  | .nil, _ + 1, ne => .cons ne .nil
  | .cons e es, n + 1, ne => .cons e (XElems.insertAt es n ne)

def XElems.append1 : XElems → XElem → XElems
  | .nil, ne => .cons ne .nil
  | .cons e es, ne => .cons e (XElems.append1 es ne)

/-! ### The binder tree model (`binder.py`) -/

mutual
inductive BItem where
  | mk (uuid title item_type : String) (created modified : Option String)
       (include_in_compile : Bool) (children : BItems)
deriving DecidableEq
inductive BItems where
  | nil
  | cons (it : BItem) (its : BItems)
deriving DecidableEq
end

def BItem.uuid : BItem → String
  | .mk u _ _ _ _ _ _ => u

def BItem.title : BItem → String
  | .mk _ t _ _ _ _ _ => t

def BItem.item_type : BItem → String
  | .mk _ _ ty _ _ _ _ => ty

def BItem.include_in_compile : BItem → Bool
  | .mk _ _ _ _ _ inc _ => inc

def BItem.children : BItem → BItems
  | .mk _ _ _ _ _ _ cs => cs

/-- `BinderItem.is_folder` (binder.py lines 24-27). -/
def BItem.is_folder (it : BItem) : Bool :=
  it.item_type = "Folder" || it.item_type = "DraftFolder" ||
  it.item_type = "ResearchFolder" || it.item_type = "TrashFolder"

/-- `BinderItem.is_text` (binder.py lines 29-32). -/
def BItem.is_text (it : BItem) : Bool :=
  it.item_type = "Text"

/-- `Title` child handling of `parse_binder_item` (binder.py lines 100-102):
missing element or empty (falsy) text yields `"Untitled"`. -/
def titleOf (cs : XElems) : String :=
  match cs.findTag "Title" with
  | some te =>
    match te.text with
    | some s => if s = "" then "Untitled" else s
    | none => "Untitled"
  | none => "Untitled"

/-- `MetaData/IncludeInCompile` handling of `parse_binder_item`
(binder.py lines 104-110): present, nonempty, case-insensitively `yes`. -/
def includeOf (cs : XElems) : Bool :=
  match cs.findTag "MetaData" with
  | some me =>
    match me.find "IncludeInCompile" with
    | some ie =>
      match ie.text with
      | some s => if s = "" then false else lowerStr s = "yes"
      | none => false
    | none => false
  | none => false

mutual
/-- `binder.parse_binder_item` (binder.py lines 93-129). -/
def parse_binder_item : XElem → BItem
  | .mk _ attrs _ cs =>
    .mk ((attrGet attrs "UUID").getD "") (titleOf cs) ((attrGet attrs "Type").getD "Text")
      (attrGet attrs "Created") (attrGet attrs "Modified") (includeOf cs)
      (parseChildrenOf cs)

/-- The children of a binder item: the first `Children` child's
`BinderItem` elements, parsed in order (binder.py lines 122-127). -/
def parseChildrenOf : XElems → BItems
  | .nil => .nil
  | .cons (.mk tag _ _ inner) cs =>
    if tag = "Children" then parseBinderItems inner else parseChildrenOf cs

/-- `findall("BinderItem")` composed with parsing each element. -/
def parseBinderItems : XElems → BItems
  | .nil => .nil
  | .cons e es =>
    if e.tag = "BinderItem" then .cons (parse_binder_item e) (parseBinderItems es)
    else parseBinderItems es
end

/-- `binder.parse_binder` (binder.py lines 132-145). -/
def parse_binder (root : XElem) : BItems :=
  match root.find "Binder" with
  | none => .nil
  | some b => parseBinderItems b.children

mutual
/-- `BinderItem.walk` (binder.py lines 59-63): depth-first, self first. -/
def BItem.walk : BItem → List BItem
  | .mk u t ty cr mo inc cs => .mk u t ty cr mo inc cs :: BItems.walkF cs

def BItems.walkF : BItems → List BItem
  | .nil => []
  | .cons c cs => BItem.walk c ++ BItems.walkF cs
end

mutual
/-- `walk` paired with the titles of the ancestors of each visited item:
`BinderItem.path` climbs the `parent` back-references, which for an item
reached by descending from a root is exactly this ancestor title list. -/
def BItem.walkAnc : List String → BItem → List (List String × BItem)
  | anc, .mk u t ty cr mo inc cs =>
    (anc, .mk u t ty cr mo inc cs) :: BItems.walkAncF (anc ++ [t]) cs

def BItems.walkAncF : List String → BItems → List (List String × BItem)
  | _, .nil => []
  | anc, .cons c cs => BItem.walkAnc anc c ++ BItems.walkAncF anc cs
end

mutual
/-- `walk` paired with each visited item's depth (`BinderItem.depth`
counts `parent` links, i.e. the descent distance from the root level). -/
def BItem.walkD : Nat → BItem → List (Nat × BItem)
  | d, .mk u t ty cr mo inc cs =>
    (d, .mk u t ty cr mo inc cs) :: BItems.walkDF (d + 1) cs

def BItems.walkDF : Nat → BItems → List (Nat × BItem)
  | _, .nil => []
  | d, .cons c cs => BItem.walkD d c ++ BItems.walkDF d cs
end

/-- `BinderItem.path` (binder.py lines 39-47) of an item whose ancestor
titles are `anc`: the `/`-joined titles from the root down to the item. -/
def pathOf (anc : List String) (it : BItem) : String :=
  String.intercalate "/" (anc ++ [it.title])

end Scriv

namespace Scriv

/-! ### The project facade (`project.py`)

A `Project` holds the filesystem (paths relative to the project root) and
the XML index.  The source caches the parsed binder in `_binder_items`
and re-parses after every index mutation, so outside of a mutation the
cache always equals `parse_binder` of the current index; the model
therefore computes `binder_items` from the index on demand.  Timestamps
and generated UUIDs are passed in as explicit arguments. -/

structure Project where
  fs : FS
  scrivx : XElem

inductive Err where
  | Locked
  | InvalidTarget
  | NotFound
deriving DecidableEq

/-- `ScrivenerProject.is_locked` (project.py lines 54-58): presence of the
`user.lock` sentinel, recomputed from the filesystem on every call. -/
def is_locked (p : Project) : Bool :=
  (p.fs.lookup "user.lock").isSome

def binder_items (p : Project) : BItems :=
  parse_binder p.scrivx

/-- `ScrivenerProject.all_items` (project.py lines 65-68). -/
def all_items (p : Project) : List BItem :=
  BItems.walkF (binder_items p)

/-- `ScrivenerProject.find_draft_folder` (project.py lines 70-75). -/
def find_draft_folder (p : Project) : Option BItem :=
  (all_items p).find? (fun it => it.item_type = "DraftFolder")

/-- `ScrivenerProject.find_by_uuid` (project.py lines 84-90): first match
in depth-first binder order. -/
def find_by_uuid (p : Project) (u : String) : Option BItem :=
  (all_items p).find? (fun it => it.uuid = u)

/-- `ScrivenerProject.find_by_path` (project.py lines 92-97): first item
in depth-first order whose computed path equals the query. -/
def find_by_path (p : Project) (path : String) : Option BItem :=
  (((binder_items p).walkAncF []).find? (fun pr => pathOf pr.1 pr.2 = path)).map (fun pr => pr.2)

def contentPath (u : String) : String :=
  "Files/Data/" ++ u ++ "/content.rtf"

def synopsisPath (u : String) : String :=
  "Files/Data/" ++ u ++ "/synopsis.txt"

def notesPath (u : String) : String :=
  "Files/Data/" ++ u ++ "/notes.rtf"

def snapshotsPath (u : String) : String :=
  "Snapshots/Data/" ++ u

/-- `ScrivenerProject.read_document` (project.py lines 111-114). -/
def read_document (p : Project) (item : BItem) : String :=
  read_rtf p.fs (contentPath item.uuid)

/-- `ScrivenerProject.read_synopsis` (project.py lines 116-121). -/
def read_synopsis (p : Project) (item : BItem) : String :=
  match p.fs.lookup (synopsisPath item.uuid) with
  | some s => pyStrip s
  | none => ""

/-- `ScrivenerProject.get_word_count` (project.py lines 128-139). -/
def get_word_count (p : Project) (item : BItem) (recursive : Bool) : Nat :=
  if recursive then
    (BItem.walk item).foldl
      (fun total child =>
        if child.is_text then total + count_words (read_document p child) else total) 0
  else
    count_words (read_document p item)

/-- Modelled from the spec: Python `re.search(query, line, flags)` — not
part of this repository's sources — restricted to query patterns built
from literal characters and the `.` wildcard.  Spec §4.5: each line is
tested against the query as a pattern, case-insensitively unless
`caseSensitive` is set.  `reMatchHere` matches the pattern at the head of
the line. -/
def reMatchHere (ci : Bool) : List Char → List Char → Bool
  | [], _ => true
  | _ :: _, [] => false
  | pc :: ps, c :: cs =>
    (pc = '.' || (if ci then pc.toLower = c.toLower else pc = c)) && reMatchHere ci ps cs

def reSearchAux (ci : Bool) (pat : List Char) : List Char → Bool
  | [] => reMatchHere ci pat []
  | c :: cs => reMatchHere ci pat (c :: cs) || reSearchAux ci pat cs

/-- Modelled from the spec: `re.search` over a whole line — the pattern is
tried at every start position. -/
def reSearch (query line : String) (caseSensitive : Bool) : Bool :=
  reSearchAux (!caseSensitive) query.data line.data

/-- The matching-lines loop of `ScrivenerProject.search` (project.py lines
157-161): test each line of the decoded content, keep matching lines
stripped, in original order. -/
def searchItemLines (p : Project) (query : String) (caseSensitive : Bool) (item : BItem) : List String :=
  (pySplitNl (read_document p item)).filterMap
    (fun line => if reSearch query line caseSensitive then some (pyStrip line) else none)

/-- `ScrivenerProject.search` (project.py lines 141-166). -/
def search (p : Project) (query : String) (caseSensitive : Bool) : List (BItem × List String) :=
  (all_items p).filterMap (fun item =>
    if item.is_text then
      if read_document p item = "" then none
      else
        if searchItemLines p query caseSensitive item ≠ [] then
          some (item, searchItemLines p query caseSensitive item)
        else none
    else none)

/-- The draft folder together with its depth in the tree (the source pairs
`find_draft_folder` with the `BinderItem.depth` parent-link count). -/
def findDraftD (p : Project) : Option (Nat × BItem) :=
  (BItems.walkDF 0 (binder_items p)).find? (fun pr => pr.2.item_type = "DraftFolder")

def hashes (n : Nat) : String :=
  ⟨List.replicate n '#'⟩

/-- The per-item contribution to `get_manuscript_text` (project.py lines
182-194): the draft folder itself contributes nothing; a folder
contributes a heading when titles are requested; a text item contributes
its decoded content (preceded by a title line when requested) exactly
when its compile flag is set and the content is nonempty. -/
def manuscriptPart (p : Project) (include_titles : Bool) (draft : BItem) (pr : Nat × BItem) : List String :=
  if pr.2 = draft then []
  else if pr.2.is_folder && include_titles then
    ["\n" ++ hashes (min pr.1 4) ++ " " ++ pr.2.title ++ "\n"]
  else if pr.2.is_text && pr.2.include_in_compile then
    let content := read_document p pr.2
    if content ≠ "" then
      (if include_titles then ["\n### " ++ pr.2.title ++ "\n"] else []) ++ [content]
    else []
  else []

/-- `ScrivenerProject.get_manuscript_text` (project.py lines 175-196). -/
def get_manuscript_text (p : Project) (include_titles : Bool) : String :=
  match findDraftD p with
  | none => ""
  | some (d0, draft) =>
    String.intercalate "\n" ((BItem.walkD d0 draft).flatMap (manuscriptPart p include_titles draft))

/-- Python `\w` (its ASCII fragment): letters, digits and the underscore. -/
def pyWordChar (c : Char) : Bool :=
  c.isAlphanum || c = '_'

/-- The snapshot-label sanitizer of `create_snapshot` (project.py line
224): `re.sub(r'[^\w\s-]', '', snapshot_title).strip()`. -/
def sanitize_label (s : String) : String :=
  pyStrip ⟨s.data.filter (fun c => pyWordChar c || pyIsSpace c || c = '-')⟩

/-- `ScrivenerProject.create_snapshot` (project.py lines 204-237), with
the clock passed in as the preformatted `now` timestamp.  Note the source
performs no lock check here.  A missing content file still produces a
snapshot, holding the encoding of the empty string. -/
def create_snapshot (p : Project) (item : BItem) (title : Option String) (now : String) : Except Err (String × Project) :=
  if !item.is_text then .error .InvalidTarget
  else
    let snapshot_title :=
      match title with
      | some t => if t = "" then "Snapshot " ++ now else t
      | none => "Snapshot " ++ now
    let safe_title := sanitize_label snapshot_title
    let snapshot_filename := now ++ " " ++ safe_title ++ ".rtf"
    let spath := snapshotsPath item.uuid ++ "/" ++ snapshot_filename
    match p.fs.lookup (contentPath item.uuid) with
    | some c => .ok (snapshot_filename, { p with fs := p.fs.write spath c })
    | none => .ok (snapshot_filename, { p with fs := p.fs.write spath (text_to_rtf "") })

/-- `ScrivenerProject.write_document` (project.py lines 239-268): lock
check first, then kind check, optional snapshot of existing content, then
encode and write. -/
def write_document (p : Project) (item : BItem) (content : String) (snapshot : Bool) (now : String) : Except Err Project :=
  if is_locked p then .error .Locked
  else if !item.is_text then .error .InvalidTarget
  else
    let step :=
      if snapshot && (p.fs.lookup (contentPath item.uuid)).isSome then
        create_snapshot p item (some "Auto-snapshot before edit") now
      else
        .ok ("", p)
    match step with
    | .error e => .error e
    | .ok (_, p1) =>
      .ok { p1 with fs := p1.fs.write (contentPath item.uuid) (text_to_rtf content) }

/-- `ScrivenerProject.write_synopsis` (project.py lines 270-287): lock
check first, then write the stripped plain text. -/
def write_synopsis (p : Project) (item : BItem) (synopsis : String) : Except Err Project :=
  if is_locked p then .error .Locked
  else .ok { p with fs := p.fs.write (synopsisPath item.uuid) (pyStrip synopsis) }

/-- `ScrivenerProject.write_notes` (project.py lines 289-318): lock check
first, optional verbatim snapshot of existing notes under the
`notes-backup` label, then encode and write. -/
def write_notes (p : Project) (item : BItem) (notes : String) (snapshot : Bool) (now : String) : Except Err Project :=
  if is_locked p then .error .Locked
  else
    let fs1 :=
      match p.fs.lookup (notesPath item.uuid) with
      | some old =>
        if snapshot then
          p.fs.write (snapshotsPath item.uuid ++ "/" ++ now ++ " notes-backup.rtf") old
        else p.fs
      | none => p.fs
    .ok { p with fs := fs1.write (notesPath item.uuid) (text_to_rtf notes) }

end Scriv

namespace Scriv

/-! ### Document creation (`create_document`, project.py lines 320-424) -/

/-- The new `BinderItem` element built by `create_document` (project.py
lines 386-404): attributes in `set` order, then `Title`, `MetaData` with
the `Yes`/`No` compile flag, and `TextSettings`. -/
def newBinderElem (title : String) (include_in_compile : Bool) (new_uuid timestamp : String) : XElem :=
  .mk "BinderItem"
    [("UUID", new_uuid), ("Type", "Text"), ("Created", timestamp), ("Modified", timestamp)]
    none
    (.cons (.mk "Title" [] (some title) .nil)
      (.cons (.mk "MetaData" [] none
          (.cons (.mk "IncludeInCompile" [] (some (if include_in_compile then "Yes" else "No")) .nil) .nil))
        (.cons (.mk "TextSettings" [] none
            (.cons (.mk "TextSelection" [] (some "0,0") .nil) .nil)) .nil)))

/-- Insert the new element into an existing `Children` element, at the
requested position when it is within bounds, else appended (project.py
lines 406-410). -/
def insertIntoChildren (c : XElem) (ne : XElem) (pos : Option Nat) : XElem :=
  match c with
  | .mk tag attrs text inner =>
    match pos with
    | some n =>
      if n < inner.length then .mk tag attrs text (inner.insertAt n ne)
      else .mk tag attrs text (inner.append1 ne)
    | none => .mk tag attrs text (inner.append1 ne)

/-- Get-or-create the `Children` element of the parent (project.py lines
380-383) and put the new element in it: the first `Children` child is
extended in place; when none exists a fresh `Children` element is
appended (as `SubElement` does) holding just the new element. -/
def addChildElem : XElems → XElem → Option Nat → XElems
  | .nil, ne, _ => .cons (.mk "Children" [] none (.cons ne .nil)) .nil
  | .cons c cs, ne, pos =>
    if c.tag = "Children" then .cons (insertIntoChildren c ne pos) cs
    else .cons c (addChildElem cs ne pos)

/-- `addChildElem` lifted to the parent element itself. -/
def addChildToParent (pe : XElem) (ne : XElem) (pos : Option Nat) : XElem :=
  match pe with
  | .mk tag attrs text cs => .mk tag attrs text (addChildElem cs ne pos)

mutual
/-- `_find_binder_item_element` (project.py lines 426-431) combined with
the in-place mutation: rewrite the first element in document (preorder)
order that carries tag `BinderItem` and `UUID = u` by `f`.  `none` when
no such element exists. -/
def updE (u : String) (f : XElem → XElem) : XElem → Option XElem
  | .mk tag attrs text cs =>
    if tag = "BinderItem" && attrGet attrs "UUID" = some u then
      some (f (.mk tag attrs text cs))
    else
      match updL u f cs with
      | some cs' => some (.mk tag attrs text cs')
      | none => none

def updL (u : String) (f : XElem → XElem) : XElems → Option XElems
  | .nil => none
  | .cons e es =>
    match updE u f e with
    | some e' => some (.cons e' es)
    | none =>
      match updL u f es with
      | some es' => some (.cons e es')
      | none => none
end

/-- `ScrivenerProject.create_document` (project.py lines 320-424).  The
generated UUIDs (`uuid.uuid4().upper()` for the item and for the document
`ModID`) and the formatted timestamp are passed in.  Lock check first,
then parent-kind check; initial content/synopsis files are written before
the index is touched (when the parent cannot be found in the XML the
source raises after those writes, leaving them orphaned); then the new
element is inserted, the document-level `Modified`/`ModID` stamps are
updated, the index is persisted, the binder re-parsed, and the freshly
resolved item returned. -/
def create_document (p : Project) (title : String) (parent : BItem)
    (content synopsis : String) (include_in_compile : Bool) (position : Option Nat)
    (new_uuid timestamp mod_id : String) : Except Err (Project × Option BItem) :=
  if is_locked p then .error .Locked
  else if !parent.is_folder then .error .InvalidTarget
  else
    let fs1 := if content ≠ "" then p.fs.write (contentPath new_uuid) (text_to_rtf content) else p.fs
    let fs2 := if synopsis ≠ "" then fs1.write (synopsisPath new_uuid) synopsis else fs1
    let ne := newBinderElem title include_in_compile new_uuid timestamp
    match updE parent.uuid (fun pe => addChildToParent pe ne position) p.scrivx with
    | none => .error .NotFound
    | some xml1 =>
      let xml2 := (xml1.setAttr "Modified" timestamp).setAttr "ModID" mod_id
      let p2 : Project := { fs := fs2, scrivx := xml2 }
      .ok (p2, find_by_uuid p2 new_uuid)

/-- `findall("BinderItem")` as an element list. -/
def filterBinderItems : XElems → XElems
  | .nil => .nil
  | .cons c cs =>
    if c.tag = "BinderItem" then .cons c (filterBinderItems cs)
    else filterBinderItems cs

/-- The number of `BinderItem` elements among the children of the first
`Children` child of a binder element — the index file's child count for
that parent (what `Children/BinderItem` holds for it). -/
def binderChildCount (e : XElem) : Nat :=
  match e.find "Children" with
  | none => 0
  | some ce => XElems.length (filterBinderItems ce.children)

mutual
/-- First element with tag `BinderItem` and the given UUID, in document
(preorder) order — the element `root.iter("BinderItem")` search finds. -/
def findBinderElem (u : String) : XElem → Option XElem
  | .mk tag attrs text cs =>
    if tag = "BinderItem" && attrGet attrs "UUID" = some u then
      some (.mk tag attrs text cs)
    else findBinderElemL u cs

def findBinderElemL (u : String) : XElems → Option XElem
  | .nil => none
  | .cons e es =>
    match findBinderElem u e with
    | some r => some r
    | none => findBinderElemL u es
end

end Scriv

namespace Scriv

/-! ### Concrete sample projects used by witnesses and counterexamples -/

/-- A text `BinderItem` element with a title and a compile flag. -/
def sceneElem (u t : String) (inc : Bool) : XElem :=
  .mk "BinderItem" [("UUID", u), ("Type", "Text")] none
    (.cons (.mk "Title" [] (some t) .nil)
      (.cons (.mk "MetaData" [] none
          (.cons (.mk "IncludeInCompile" [] (some (if inc then "Yes" else "No")) .nil) .nil)) .nil))

/-- A folder `BinderItem` element with explicit children. -/
def folderElem (u t ty : String) (inner : XElems) : XElem :=
  .mk "BinderItem" [("UUID", u), ("Type", ty)] none
    (.cons (.mk "Title" [] (some t) .nil)
      (.cons (.mk "Children" [] none inner) .nil))

/-- A project root element wrapping a binder forest. -/
def rootElemOf (es : XElems) : XElem :=
  .mk "ScrivenerProject" [("Modified", "2026-01-01 00:00:00 -0600")] none
    (.cons (.mk "Binder" [] none es) .nil)

/-- Sample: DraftFolder `Draft` containing folder `Part One` containing
text `Scene 1` (in compile) and `Scene 2` (not in compile). -/
def sampleXml : XElem :=
  rootElemOf (.cons
    (folderElem "D0" "Draft" "DraftFolder"
      (.cons (folderElem "P1" "Part One" "Folder"
        (.cons (sceneElem "S1" "Scene 1" true)
          (.cons (sceneElem "S2" "Scene 2" false) .nil))) .nil)) .nil)

def sampleFS : FS :=
  FS.write (FS.write [] (contentPath "S1") (text_to_rtf "Hello world."))
    (contentPath "S2") (text_to_rtf "Secret stuff")

def sampleProj : Project :=
  { fs := sampleFS, scrivx := sampleXml }

def sampleLockedProj : Project :=
  { sampleProj with fs := sampleProj.fs.write "user.lock" "" }

/-- The parsed `Scene 1` item of `sampleProj`. -/
def s1Item : BItem :=
  .mk "S1" "Scene 1" "Text" none none true .nil

def s2Item : BItem :=
  .mk "S2" "Scene 2" "Text" none none false .nil

/-! ## C1 — codec round trip -/

/-- C1 asserts `decode(encode(t)) = t` for all printable text with single
and double line breaks.  The encoder applies `replace("\n\n", "\\par\\par\n")`
and then `replace("\n", "\\line\n")` to the whole string, so the second
pass also rewrites the newline terminating each inserted paragraph
marker: a double line break is emitted as `\par\par\line` — three break
markers — and decoding yields three newlines where the input had two.
This contradicts the encoder's own stated intent (only the *remaining*
single line breaks are to become line-break markers) and breaks the
round-trip guarantee. -/
theorem c1_roundtrip_fails_on_double_newline :
    text_to_rtf "Hello\n\nWorld" = rtfHeader ++ "Hello\\par\\par\\line\nWorld\x7d" ∧
    read_rtf (FS.write [] "p" (text_to_rtf "Hello\n\nWorld")) "p" = "Hello\n\n\nWorld" ∧
    ("Hello\n\n\nWorld" : String) ≠ "Hello\n\nWorld" ∧
    read_rtf (FS.write [] "p" (text_to_rtf "a\nb")) "p" = "a\nb" := by
  refine ⟨by decide, by decide, by decide, by decide⟩

/-! ## C5 — decode never fails -/

/-- C5: the decode path is total and degrades to empty text: a missing
content file reads as empty text, and malformed bytes (decoder failure)
are absorbed into empty text; `read_document` never surfaces a
`CodecFailure`. -/
theorem c5_decode_failures_absorbed (p : Project) (item : BItem) :
    (p.fs.lookup (contentPath item.uuid) = none → read_document p item = "") ∧
    (∀ content, p.fs.lookup (contentPath item.uuid) = some content →
      rtf_to_text content = .error () → read_document p item = "") := by
  constructor
  · intro h
    unfold read_document read_rtf
    rw [h]
  · intro content h hc
    unfold read_document read_rtf
    rw [h]
    by_cases hs : pyStrip content = ""
    · simp [hs]
    · simp [hs, hc]

/-- Witness for C5 at concrete inputs: an empty filesystem (missing file)
and a malformed content file. -/
theorem c5_witness :
    read_document { fs := ([] : FS), scrivx := sampleXml } s1Item = "" ∧
    read_document { fs := FS.write [] (contentPath "S1") "garbage", scrivx := sampleXml } s1Item = "" := by
  constructor
  · exact (c5_decode_failures_absorbed { fs := ([] : FS), scrivx := sampleXml } s1Item).1 rfl
  · exact (c5_decode_failures_absorbed
      { fs := FS.write [] (contentPath "S1") "garbage", scrivx := sampleXml } s1Item).2
      "garbage" rfl rfl

/-! ## C9 — snapshot label sanitization -/

/-- The sanitizer exactly as claim C9 words it: every character outside
letters, digits, whitespace and hyphen is removed (and nothing else
happens). -/
def sanitizeLabelClaim (s : String) : String :=
  ⟨s.data.filter (fun c => c.isAlpha || c.isDigit || pyIsSpace c || c = '-')⟩

/-- C9 as stated is false: the source keeps every `\w` character, and
`\w` includes the underscore, which is not a letter, digit, whitespace
character or hyphen; the source also strips leading/trailing whitespace
afterwards.  At input `"a_b"` the code keeps the underscore while the
claim's sanitizer removes it. -/
theorem c9_counterexample :
    sanitize_label "a_b" = "a_b" ∧
    sanitizeLabelClaim "a_b" = "ab" ∧
    sanitize_label "a_b" ≠ sanitizeLabelClaim "a_b" := by
  refine ⟨by decide, by decide, by decide⟩

/-- Written from the amended claim's words, with its own recursion
(independent of the building blocks of `sanitize_label`): keep, in order,
exactly the characters that are word characters (letters, digits,
underscore), whitespace characters or hyphens, removing every other
character. -/
def keepAllowed : List Char → List Char
  | [] => []
  | c :: cs =>
      if pyWordChar c || pyIsSpace c || c = '-' then c :: keepAllowed cs
      else keepAllowed cs

/-- Written from the amended claim's words: remove leading whitespace
characters. -/
def trimLead : List Char → List Char
  | [] => []
  | c :: cs => if pyIsSpace c then trimLead cs else c :: cs

/-- Written from the amended claim's words: remove trailing whitespace
characters. -/
def trimTrail (l : List Char) : List Char :=
  (trimLead l.reverse).reverse

/-- The sanitizer exactly as amended claim C9 words it: keep exactly the
word characters, whitespace characters and hyphens of the input, then
trim leading and trailing whitespace. -/
def sanitizeLabelAmended (s : String) : String :=
  ⟨trimTrail (trimLead (keepAllowed s.data))⟩

theorem keepAllowed_eq_filter (l : List Char) :
    keepAllowed l = l.filter (fun c => pyWordChar c || pyIsSpace c || c = '-') := by
  induction l with
  | nil => rfl
  | cons c cs ih =>
      by_cases h : (pyWordChar c || pyIsSpace c || c = '-') = true
      · simp [keepAllowed, List.filter_cons, h, ih]
      · simp [keepAllowed, List.filter_cons, h, ih]

theorem trimLead_eq_dropWhile (l : List Char) :
    trimLead l = l.dropWhile pyIsSpace := by
  induction l with
  | nil => rfl
  | cons c cs ih =>
      by_cases h : pyIsSpace c = true
      · simp [trimLead, List.dropWhile_cons, h, ih]
      · simp [trimLead, List.dropWhile_cons, h]

/-- C9 amended: the sanitized label is exactly the input with every
character outside the word characters (letters, digits, underscore),
whitespace characters and hyphens removed, in order, then trimmed of
leading and trailing whitespace — stated as equality with the claim-words
sanitizer `sanitizeLabelAmended`, which pins both which characters are
kept and the trimming; consequently every character of the result lies in
the allowed class and the result is a subsequence of the input. -/
theorem c9_sanitize_exact (s : String) :
    sanitize_label s = sanitizeLabelAmended s ∧
    (∀ c ∈ (sanitize_label s).data, (pyWordChar c || pyIsSpace c || c = '-') = true) ∧
    (sanitize_label s).data.Sublist s.data := by
  have heq : sanitize_label s = sanitizeLabelAmended s := by
    unfold sanitize_label sanitizeLabelAmended pyStrip trimTrail
    rw [keepAllowed_eq_filter, trimLead_eq_dropWhile, trimLead_eq_dropWhile]
  have hstrip : ∀ t : String, (pyStrip t).data.Sublist t.data := by
    intro t
    unfold pyStrip
    have h1 : (t.data.dropWhile pyIsSpace).Sublist t.data := List.dropWhile_sublist _
    have h2 : ((t.data.dropWhile pyIsSpace).reverse.dropWhile pyIsSpace).Sublist
        (t.data.dropWhile pyIsSpace).reverse := List.dropWhile_sublist _
    have h3 := h2.reverse
    simp only [List.reverse_reverse] at h3
    exact h3.trans h1
  have hfil : (sanitize_label s).data.Sublist
      (s.data.filter (fun c => pyWordChar c || pyIsSpace c || c = '-')) := by
    unfold sanitize_label
    exact hstrip ⟨s.data.filter (fun c => pyWordChar c || pyIsSpace c || c = '-')⟩
  refine ⟨heq, ?_, ?_⟩
  · intro c hc
    have := hfil.mem hc
    exact (List.mem_filter.mp this).2
  · exact hfil.trans (List.filter_sublist _)

/-- Witness for C9's amended theorem at a concrete label: the exact
equality, the character-class fact at 'a', and the subsequence fact are
instantiated at `" a_b! "`; the concrete value `"a_b"` shows the bang was
removed, the underscore kept and the boundary whitespace trimmed. -/
theorem c9_witness :
    sanitize_label " a_b! " = sanitizeLabelAmended " a_b! " ∧
    (pyWordChar 'a' || pyIsSpace 'a' || 'a' = '-') = true ∧
    (sanitize_label " a_b! ").data.Sublist (" a_b! ".data) ∧
    sanitize_label " a_b! " = "a_b" :=
  ⟨(c9_sanitize_exact " a_b! ").1,
   (c9_sanitize_exact " a_b! ").2.1 'a' (by decide),
   (c9_sanitize_exact " a_b! ").2.2,
   by decide⟩

/-! ## C10 — snapshot of a missing content file -/

/-- C10: `create_snapshot` on a text entry whose content file is missing
still succeeds, returns the snapshot filename, and writes a snapshot
holding the encoding of the empty string. -/
theorem c10_snapshot_missing_content (p : Project) (item : BItem) (now : String)
    (htext : item.is_text = true)
    (hmiss : p.fs.lookup (contentPath item.uuid) = none) :
    ∃ fn p2, create_snapshot p item none now = .ok (fn, p2) ∧
      fn = now ++ " " ++ sanitize_label ("Snapshot " ++ now) ++ ".rtf" ∧
      p2.fs.lookup (snapshotsPath item.uuid ++ "/" ++ fn) = some (text_to_rtf "") := by
  refine ⟨now ++ " " ++ sanitize_label ("Snapshot " ++ now) ++ ".rtf",
    { p with fs := p.fs.write (snapshotsPath item.uuid ++ "/" ++
      (now ++ " " ++ sanitize_label ("Snapshot " ++ now) ++ ".rtf")) (text_to_rtf "") }, ?_, rfl, ?_⟩
  · unfold create_snapshot
    rw [htext]
    simp only [Bool.not_true, Bool.false_eq_true, if_false]
    rw [hmiss]
  · unfold FS.write FS.lookup
    simp

/-- Witness for C10: a text item with no content file on an empty
filesystem. -/
theorem c10_witness :
    ∃ fn p2, create_snapshot { fs := ([] : FS), scrivx := sampleXml } s1Item none "2026-02-03-04-05-06" = .ok (fn, p2) ∧
      fn = "2026-02-03-04-05-06" ++ " " ++ sanitize_label ("Snapshot " ++ "2026-02-03-04-05-06") ++ ".rtf" ∧
      p2.fs.lookup (snapshotsPath s1Item.uuid ++ "/" ++ fn) = some (text_to_rtf "") :=
  c10_snapshot_missing_content { fs := ([] : FS), scrivx := sampleXml } s1Item
    "2026-02-03-04-05-06" (by decide) rfl

end Scriv

namespace Scriv

/-! ## C2 — lock check before any write -/

/-- C2 as stated is false for `createSnapshot`: the source performs no
lock check there.  With the lock sentinel present, `create_snapshot`
succeeds and writes a snapshot file instead of failing with `Locked`. -/
theorem c2_counterexample :
    is_locked sampleLockedProj = true ∧
    ((create_snapshot sampleLockedProj s1Item none "2026-02-03-04-05-06").toOption.map
      (fun pr => (pr.2.fs.lookup (snapshotsPath "S1" ++ "/" ++ pr.1)).isSome)) = some true := by
  refine ⟨by decide, by decide⟩

/-- C2 amended: `write_document`, `write_synopsis`, `write_notes` and
`create_document` check the lock as their first action and fail with
`Locked` before touching the filesystem (the error is returned before any
write, so the on-disk state is unchanged); `create_snapshot` performs no
lock check. -/
theorem c2_lock_checked_first (p : Project) (item parent : BItem)
    (content synopsis notes title : String) (snap inc : Bool) (pos : Option Nat)
    (now w ts mid : String)
    (h : is_locked p = true) :
    write_document p item content snap now = .error .Locked ∧
    write_synopsis p item synopsis = .error .Locked ∧
    write_notes p item notes snap now = .error .Locked ∧
    create_document p title parent content synopsis inc pos w ts mid = .error .Locked := by
  refine ⟨?_, ?_, ?_, ?_⟩
  · unfold write_document; rw [h]; rfl
  · unfold write_synopsis; rw [h]; rfl
  · unfold write_notes; rw [h]; rfl
  · unfold create_document; rw [h]; rfl

/-- Witness for C2's amended theorem on the locked sample project. -/
theorem c2_witness :
    write_document sampleLockedProj s1Item "x" true "T" = .error .Locked ∧
    write_synopsis sampleLockedProj s1Item "y" = .error .Locked ∧
    write_notes sampleLockedProj s1Item "z" true "T" = .error .Locked ∧
    create_document sampleLockedProj "New" s1Item "" "" true none "W" "T" "M" = .error .Locked :=
  c2_lock_checked_first sampleLockedProj s1Item s1Item "x" "y" "z" "New" true true none
    "T" "W" "T" "M" (by decide)

/-! ## C7 — word counts -/

/-- A folder item that nevertheless has a content file on disk. -/
def folderWithContentProj : Project :=
  { fs := FS.write [] (contentPath "F0") (text_to_rtf "hello world"), scrivx := sampleXml }

def f0Folder : BItem :=
  .mk "F0" "Folder A" "Folder" none none false .nil

/-- C7 as stated is false: the non-recursive branch of `get_word_count`
reads the entry's content file without checking the entry kind, so a
folder whose identifier has a content file on disk gets a nonzero
non-recursive word count, where the claim requires 0 for non-text
entries. -/
theorem c7_counterexample :
    f0Folder.is_text = false ∧
    get_word_count folderWithContentProj f0Folder false = 2 := by
  refine ⟨by decide, by decide⟩

/-- C7 amended: the non-recursive count equals the whitespace-token count
of the entry's decoded content regardless of entry kind (hence 0 whenever
the decoded content is empty — in particular for a missing content file),
and the recursive count is the sum of the non-recursive counts over all
text-kind descendants including the entry itself. -/
theorem c7_word_count (p : Project) (item root : BItem) :
    get_word_count p item false = count_words (read_document p item) ∧
    (read_document p item = "" → get_word_count p item false = 0) ∧
    get_word_count p root true =
      ((BItem.walk root).filter (fun e => e.is_text)).foldl
        (fun a e => a + get_word_count p e false) 0 := by
  refine ⟨rfl, ?_, ?_⟩
  · intro h
    unfold get_word_count
    rw [h]
    rfl
  · show (BItem.walk root).foldl
      (fun total child => if child.is_text then total + count_words (read_document p child) else total) 0 = _
    have key : ∀ (l : List BItem) (a : Nat),
        l.foldl (fun total child =>
          if child.is_text then total + count_words (read_document p child) else total) a =
        (l.filter (fun e => e.is_text)).foldl
          (fun t e => t + get_word_count p e false) a := by
      intro l
      induction l with
      | nil => intro a; rfl
      | cons hd tl ih =>
        intro a
        by_cases hh : hd.is_text
        · simp only [List.foldl_cons, List.filter_cons, hh, if_pos, ih]
          rfl
        · simp only [List.foldl_cons, List.filter_cons]
          rw [if_neg (by simp [hh]), ih]
          simp [hh]
    exact key (BItem.walk root) 0

/-- Witness for C7's amended theorem on the sample project: `Scene 1` has
2 words, the draft subtree has 4 in total, and a missing file counts 0. -/
theorem c7_witness :
    get_word_count sampleProj s1Item false = count_words (read_document sampleProj s1Item) ∧
    get_word_count { fs := ([] : FS), scrivx := sampleXml } s1Item false = 0 := by
  constructor
  · exact (c7_word_count sampleProj s1Item s1Item).1
  · exact (c7_word_count { fs := ([] : FS), scrivx := sampleXml } s1Item s1Item).2.1 rfl

end Scriv

namespace Scriv

/-! ## C4 — manuscript compilation exclusions -/

theorem BItem.is_folder_of_is_text {item : BItem} (h : item.is_text = true) :
    item.is_folder = false := by
  have ht : item.item_type = "Text" := by simpa [BItem.is_text] using h
  simp [BItem.is_folder, ht]

/-- C4: compilation emits no content for a text entry whose compile flag
is false (whatever its ancestors are — the per-item contribution does not
consult them), emits no heading for the draft folder itself, emits an
included nonempty text entry's content unconditionally on its ancestors,
and the whole manuscript is exactly the concatenation of these per-item
contributions over the draft subtree. -/
theorem c4_compile_exclusions (p : Project) (it : Bool) (draft item : BItem) (d : Nat) :
    (item.is_text = true → item.include_in_compile = false →
      manuscriptPart p it draft (d, item) = []) ∧
    manuscriptPart p it draft (d, draft) = [] ∧
    (item.is_text = true → item.include_in_compile = true → item ≠ draft →
      read_document p item ≠ "" →
      manuscriptPart p it draft (d, item) =
        (if it then ["\n### " ++ item.title ++ "\n"] else []) ++ [read_document p item]) ∧
    get_manuscript_text p it = (match findDraftD p with
      | none => ""
      | some (d0, dr) =>
        String.intercalate "\n" ((BItem.walkD d0 dr).flatMap (manuscriptPart p it dr))) := by
  refine ⟨?_, ?_, ?_, rfl⟩
  · intro ht hinc
    by_cases hd : item = draft
    · simp [manuscriptPart, hd]
    · simp [manuscriptPart, hd, BItem.is_folder_of_is_text ht, hinc]
  · simp [manuscriptPart]
  · intro ht hinc hd hcon
    simp [manuscriptPart, hd, BItem.is_folder_of_is_text ht, ht, hinc, hcon]

/-- The parsed draft folder of `sampleProj` (with its parsed subtree). -/
def draftItem : BItem :=
  .mk "D0" "Draft" "DraftFolder" none none false
    (.cons (.mk "P1" "Part One" "Folder" none none false
      (.cons s1Item (.cons s2Item .nil))) .nil)

/-- Witness for C4 on the sample project: `Scene 2` (not in compile)
contributes nothing, the draft folder contributes no heading, and the
compiled manuscript of the sample indeed never mentions `Scene 2`. -/
theorem c4_witness :
    manuscriptPart sampleProj true draftItem (2, s2Item) = [] ∧
    manuscriptPart sampleProj true draftItem (0, draftItem) = [] := by
  have h := c4_compile_exclusions sampleProj true draftItem s2Item 2
  exact ⟨h.1 (by decide) (by decide), h.2.1⟩

/-- The compiled sample manuscript, computed end to end: `Part One`
heading, `Scene 1` heading and content, and no `Scene 2`. -/
theorem c4_sample_manuscript :
    get_manuscript_text sampleProj true =
      "\n# Part One\n\n\n### Scene 1\n\nHello world." := by
  decide

/-! ## C6 — full-text search -/

/-- Literal substring containment (case-folded when not case-sensitive):
the claim's reading of "the line contains the query". -/
def listContainsSub : List Char → List Char → Bool
  | [], q => q.isPrefixOf []
  | c :: rest, q => q.isPrefixOf (c :: rest) || listContainsSub rest q

def containsQuery (line query : String) (caseSensitive : Bool) : Bool :=
  if caseSensitive then listContainsSub line.data query.data
  else listContainsSub (lowerStr line).data (lowerStr query).data

/-- C6 as stated is false: the query is used as a regular-expression
pattern, not a literal.  Query `l.o` (with the `.` wildcard) matches the
line `Hello world.` — which search duly returns — yet that line does not
contain the query string `l.o` under any case sensitivity. -/
theorem c6_counterexample :
    search sampleProj "l.o" false = [(s1Item, ["Hello world."])] ∧
    containsQuery "Hello world." "l.o" false = false := by
  refine ⟨by decide, by decide⟩

/-- C6 amended: every search result is a text-kind entry with a nonempty
match list; the matched lines are exactly the stripped content lines that
match the query as a pattern, in original line order; and every returned
line is the strip of a content line matching the query as a pattern under
the requested case sensitivity (not necessarily containing the query as a
literal substring). -/
theorem c6_search_properties (p : Project) (q : String) (cs : Bool) :
    ∀ pr ∈ search p q cs,
      pr.1.is_text = true ∧
      pr.2 ≠ [] ∧
      pr.2 = (pySplitNl (read_document p pr.1)).filterMap
        (fun line => if reSearch q line cs then some (pyStrip line) else none) ∧
      ∀ l ∈ pr.2, ∃ l0 ∈ pySplitNl (read_document p pr.1),
        pyStrip l0 = l ∧ reSearch q l0 cs = true := by
  intro pr hpr
  unfold search at hpr
  rw [List.mem_filterMap] at hpr
  obtain ⟨item, _hmem, hf⟩ := hpr
  by_cases ht : item.is_text = true
  · rw [if_pos ht] at hf
    by_cases hcon : read_document p item = ""
    · rw [if_pos hcon] at hf
      exact absurd hf (by simp)
    · rw [if_neg hcon] at hf
      by_cases hml : searchItemLines p q cs item = []
      · rw [if_neg (by simp [hml])] at hf
        exact absurd hf (by simp)
      · rw [if_pos hml, Option.some_inj] at hf
        subst hf
        refine ⟨ht, hml, rfl, ?_⟩
        intro l hl
        have hl' : l ∈ (pySplitNl (read_document p item)).filterMap
            (fun line => if reSearch q line cs then some (pyStrip line) else none) := hl
        rw [List.mem_filterMap] at hl'
        obtain ⟨l0, h0, hif⟩ := hl'
        by_cases hre : reSearch q l0 cs = true
        · rw [if_pos hre, Option.some_inj] at hif
          exact ⟨l0, h0, hif, hre⟩
        · rw [if_neg hre] at hif
          exact absurd hif (by simp)
  · rw [if_neg ht] at hf
    exact absurd hf (by simp)

/-- Witness for C6's amended theorem at the sample search. -/
theorem c6_witness :
    (s1Item, ["Hello world."]).1.is_text = true ∧
    (s1Item, ["Hello world."]).2 ≠ [] ∧
    (s1Item, ["Hello world."]).2 = (pySplitNl (read_document sampleProj (s1Item, ["Hello world."]).1)).filterMap
      (fun line => if reSearch "l.o" line false then some (pyStrip line) else none) ∧
    ∀ l ∈ (s1Item, ["Hello world."]).2,
      ∃ l0 ∈ pySplitNl (read_document sampleProj (s1Item, ["Hello world."]).1),
        pyStrip l0 = l ∧ reSearch "l.o" l0 false = true :=
  c6_search_properties sampleProj "l.o" false (s1Item, ["Hello world."]) (by decide)

end Scriv

namespace Scriv

/-! ## C8 — paths and `find_by_path` -/

/-- A project whose binder holds two sibling text items with the same
title `A` under folder `R`: both compute the path `R/A`. -/
def dupXml : XElem :=
  rootElemOf (.cons (folderElem "R0" "R" "Folder"
    (.cons (sceneElem "U1" "A" false) (.cons (sceneElem "U2" "A" false) .nil))) .nil)

def dupProj : Project :=
  { fs := [], scrivx := dupXml }

def dupA1 : BItem := .mk "U1" "A" "Text" none none false .nil

def dupA2 : BItem := .mk "U2" "A" "Text" none none false .nil

/-- C8 as stated is false: titles need not be unique, so two entries can
compute the same path, and `find_by_path` returns the first in
depth-first order — for the second entry `findByPath(path)` returns a
different entry. -/
theorem c8_counterexample :
    (["R"], dupA2) ∈ BItems.walkAncF [] (binder_items dupProj) ∧
    pathOf ["R"] dupA2 = "R/A" ∧
    find_by_path dupProj "R/A" = some dupA1 ∧
    dupA1 ≠ dupA2 := by
  refine ⟨by decide, by decide, by decide, by decide⟩

/-- C8 amended: an entry's path is the `/`-joined titles from its nearest
root ancestor down to the entry, and `findByPath` of that path returns
the entry itself provided no other entry of the tree computes the same
path string. -/
theorem c8_path_roundtrip (p : Project) (anc : List String) (it : BItem)
    (hmem : (anc, it) ∈ BItems.walkAncF [] (binder_items p))
    (huniq : ∀ pr ∈ BItems.walkAncF [] (binder_items p),
      pathOf pr.1 pr.2 = pathOf anc it → pr = (anc, it)) :
    pathOf anc it = String.intercalate "/" (anc ++ [it.title]) ∧
    find_by_path p (pathOf anc it) = some it := by
  refine ⟨rfl, ?_⟩
  unfold find_by_path
  cases hfind : (BItems.walkAncF [] (binder_items p)).find?
      (fun pr => pathOf pr.1 pr.2 = pathOf anc it) with
  | none =>
    rw [List.find?_eq_none] at hfind
    exact absurd (decide_eq_true rfl) (hfind (anc, it) hmem)
  | some q =>
    have hq := List.find?_some hfind
    have hqmem := List.mem_of_find?_eq_some hfind
    have heq : pathOf q.1 q.2 = pathOf anc it := by simpa using hq
    have hq2 := huniq q hqmem heq
    subst hq2
    rfl

/-- Witness for C8's amended theorem: `Scene 1` in the sample project has
a unique path and round-trips through `find_by_path`. -/
theorem c8_witness :
    pathOf ["Draft", "Part One"] s1Item =
      String.intercalate "/" (["Draft", "Part One"] ++ [s1Item.title]) ∧
    find_by_path sampleProj (pathOf ["Draft", "Part One"] s1Item) = some s1Item :=
  c8_path_roundtrip sampleProj ["Draft", "Part One"] s1Item (by decide) (by decide)

end Scriv

namespace Scriv

/-! ## C3 — verification machinery for `create_document`

The proof relates the element-level update performed on the XML index to
a corresponding first-match update on the parsed binder forest, under a
well-formedness discipline satisfied by real index files (binder content
lives under the `Binder` element, `BinderItem` elements carry a `UUID`
attribute, item children live under a single `Children` element, and
`BinderItem` tags do not occur in foreign positions). -/

def BItems.snoc : BItems → BItem → BItems
  | .nil, x => .cons x .nil
  | .cons it its, x => .cons it (BItems.snoc its x)

/-- Append a child to a binder item (what inserting the new element under
the parent's `Children` does to the parsed parent, at append position). -/
def snocChild (it : BItem) (x : BItem) : BItem :=
  match it with
  | .mk u t ty cr mo inc cs => .mk u t ty cr mo inc (cs.snoc x)

mutual
/-- First-match (preorder) update on a parsed binder item: rewrite the
first item whose `uuid` is `u` by `g`. -/
def updItemE (u : String) (g : BItem → BItem) : BItem → Option BItem
  | .mk u0 t ty cr mo inc cs =>
    if u0 = u then some (g (.mk u0 t ty cr mo inc cs))
    else
      match updItemL u g cs with
      | some cs' => some (.mk u0 t ty cr mo inc cs')
      | none => none

def updItemL (u : String) (g : BItem → BItem) : BItems → Option BItems
  | .nil => none
  | .cons it its =>
    match updItemE u g it with
    | some it' => some (.cons it' its)
    | none =>
      match updItemL u g its with
      | some its' => some (.cons it its')
      | none => none
end

/-- The first depth-first entry with a given identifier, together with
its ancestor titles. -/
def findAncU (its : BItems) (u : String) : Option (List String × BItem) :=
  (BItems.walkAncF [] its).find? (fun pr => pr.2.uuid = u)

mutual
/-- No element of this subtree carries the `BinderItem` tag. -/
def noBinderB : XElem → Bool
  | .mk tag _ _ cs => tag ≠ "BinderItem" && noBinderL cs

def noBinderL : XElems → Bool
  | .nil => true
  | .cons c cs => noBinderB c && noBinderL cs
end

mutual
/-- Well-formed binder element: tagged `BinderItem`, carries a `UUID`
attribute, and its children are well-formed item children. -/
def wfBinderElem : XElem → Bool
  | .mk tag attrs _ cs =>
    tag = "BinderItem" && (attrGet attrs "UUID").isSome && wfItemChildren cs

/-- Well-formed children of a binder element: before the first `Children`
child no `BinderItem` tag occurs; the first `Children` child holds a
well-formed binder forest; after it no `BinderItem` tag occurs. -/
def wfItemChildren : XElems → Bool
  | .nil => true
  | .cons (.mk tag a x inner) cs =>
    if tag = "Children" then wfForest inner && noBinderL cs
    else noBinderB (.mk tag a x inner) && wfItemChildren cs

/-- Well-formed binder forest: every element is a well-formed binder
element. -/
def wfForest : XElems → Bool
  | .nil => true
  | .cons c cs => wfBinderElem c && wfForest cs
end

/-- Well-formed children of the index root: before the first `Binder`
child no `BinderItem` tag occurs; the first `Binder` child holds a
well-formed binder forest; after it no `BinderItem` tag occurs. -/
def rootChildrenOk : XElems → Bool
  | .nil => true
  | .cons (.mk tag a x inner) cs =>
    if tag = "Binder" then wfForest inner && noBinderL cs
    else noBinderB (.mk tag a x inner) && rootChildrenOk cs

/-- Well-formed index root. -/
def rootOk : XElem → Bool
  | .mk tag _ _ cs => tag ≠ "BinderItem" && rootChildrenOk cs

/-- The binder forest parsed from the root's children (the body of
`parse_binder`). -/
def parseBinderOf (rcs : XElems) : BItems :=
  match rcs.findTag "Binder" with
  | none => .nil
  | some b => parseBinderItems b.children

theorem parse_binder_eq_parseBinderOf (root : XElem) :
    parse_binder root = parseBinderOf root.children := by
  cases root
  rfl

end Scriv

namespace Scriv

/-! ### Small structural lemmas about the element-level insertion -/

theorem insertIntoChildren_none (t : String) (a : List (String × String))
    (x : Option String) (inner : XElems) (ne : XElem) :
    insertIntoChildren (.mk t a x inner) ne none = .mk t a x (inner.append1 ne) := rfl

theorem parseBinderItems_append1 : ∀ (inner : XElems) (ne : XElem),
    ne.tag = "BinderItem" →
    parseBinderItems (XElems.append1 inner ne) =
      BItems.snoc (parseBinderItems inner) (parse_binder_item ne)
  | .nil, ne, h => by
    simp [XElems.append1, parseBinderItems, h, BItems.snoc]
  | .cons c cs, ne, h => by
    by_cases hc : c.tag = "BinderItem" <;>
      simp [XElems.append1, parseBinderItems, hc, BItems.snoc,
        parseBinderItems_append1 cs ne h]

theorem parseChildrenOf_addChildElem : ∀ (cs : XElems) (ne : XElem),
    ne.tag = "BinderItem" →
    parseChildrenOf (addChildElem cs ne none) =
      BItems.snoc (parseChildrenOf cs) (parse_binder_item ne)
  | .nil, ne, h => by
    simp [addChildElem, parseChildrenOf, parseBinderItems, h, BItems.snoc]
  | .cons (.mk ctag ca cx inner) cs2, ne, h => by
    by_cases hc : ctag = "Children"
    · subst hc
      simp [addChildElem, XElem.tag, insertIntoChildren, parseChildrenOf,
        parseBinderItems_append1 inner ne h]
    · simp [addChildElem, XElem.tag, hc, parseChildrenOf,
        parseChildrenOf_addChildElem cs2 ne h]

theorem findTag_addChildElem : ∀ (cs : XElems) (ne : XElem) (pos : Option Nat) (t : String),
    t ≠ "Children" →
    XElems.findTag (addChildElem cs ne pos) t = XElems.findTag cs t
  | .nil, ne, pos, t, ht => by
    simp [addChildElem, XElems.findTag, XElem.tag, Ne.symm ht]
  | .cons (.mk ctag ca cx inner) cs2, ne, pos, t, ht => by
    by_cases hc : ctag = "Children"
    · subst hc
      cases pos with
      | none =>
        simp [addChildElem, XElem.tag, insertIntoChildren, XElems.findTag, Ne.symm ht]
      | some n =>
        by_cases hn : n < inner.length <;>
          simp [addChildElem, XElem.tag, insertIntoChildren, hn, XElems.findTag, Ne.symm ht]
    · by_cases he : ctag = t
      · subst he
        simp [addChildElem, XElem.tag, hc, XElems.findTag]
      · simp [addChildElem, XElem.tag, hc, he, XElems.findTag,
          findTag_addChildElem cs2 ne pos t ht]

theorem parse_addChildToParent (e ne : XElem) (hne : ne.tag = "BinderItem") :
    parse_binder_item (addChildToParent e ne none) =
      snocChild (parse_binder_item e) (parse_binder_item ne) := by
  cases e with
  | mk tag attrs x cs =>
    have ht : XElems.findTag (addChildElem cs ne none) "Title" = XElems.findTag cs "Title" :=
      findTag_addChildElem cs ne none "Title" (by decide)
    have hm : XElems.findTag (addChildElem cs ne none) "MetaData" = XElems.findTag cs "MetaData" :=
      findTag_addChildElem cs ne none "MetaData" (by decide)
    simp [addChildToParent, parse_binder_item, snocChild, titleOf, includeOf, ht, hm,
      parseChildrenOf_addChildElem cs ne hne]

theorem addChildToParent_tag (e ne : XElem) (pos : Option Nat) :
    (addChildToParent e ne pos).tag = e.tag := by
  cases e
  rfl

theorem addChildToParent_attrs (e ne : XElem) (pos : Option Nat) :
    (addChildToParent e ne pos).attrs = e.attrs := by
  cases e
  rfl

/-! ### Walk lemmas -/

theorem walkAncF_snoc : ∀ (cs : BItems) (anc : List String) (x : BItem),
    BItems.walkAncF anc (BItems.snoc cs x) =
      BItems.walkAncF anc cs ++ BItem.walkAnc anc x
  | .nil, anc, x => by simp [BItems.snoc, BItems.walkAncF]
  | .cons it its, anc, x => by
    simp [BItems.snoc, BItems.walkAncF, walkAncF_snoc its anc x]

theorem walkAnc_childless (anc : List String) (x : BItem) (h : x.children = .nil) :
    BItem.walkAnc anc x = [(anc, x)] := by
  cases x with
  | mk u t ty cr mo inc cs =>
    simp [BItem.children] at h
    subst h
    simp [BItem.walkAnc, BItems.walkAncF]

mutual
theorem walkAnc_map_snd : ∀ (it : BItem) (anc : List String),
    (BItem.walkAnc anc it).map (fun pr => pr.2) = BItem.walk it
  | .mk u t ty cr mo inc cs, anc => by
    simp [BItem.walkAnc, BItem.walk, walkAncF_map_snd cs (anc ++ [t])]

theorem walkAncF_map_snd : ∀ (its : BItems) (anc : List String),
    (BItems.walkAncF anc its).map (fun pr => pr.2) = BItems.walkF its
  | .nil, anc => by simp [BItems.walkAncF, BItems.walkF]
  | .cons it its, anc => by
    simp [BItems.walkAncF, BItems.walkF, walkAnc_map_snd it anc, walkAncF_map_snd its anc]
end

/-- The parsed form of the element `create_document` builds. -/
theorem parse_newBinderElem (title : String) (inc : Bool) (w ts : String) :
    parse_binder_item (newBinderElem title inc w ts) =
      .mk w (if title = "" then "Untitled" else title) "Text" (some ts) (some ts) inc .nil := by
  cases inc <;> rfl

/-! ### Child-count lemmas -/

def cntC (cs : XElems) : Nat :=
  match cs.findTag "Children" with
  | none => 0
  | some ce => XElems.length (filterBinderItems ce.children)

theorem binderChildCount_eq_cntC : ∀ (e : XElem), binderChildCount e = cntC e.children
  | .mk t a x cs => rfl

theorem filterBinderItems_append1 : ∀ (inner : XElems) (ne : XElem),
    ne.tag = "BinderItem" →
    XElems.length (filterBinderItems (XElems.append1 inner ne)) =
      XElems.length (filterBinderItems inner) + 1
  | .nil, .mk nt na nx ncs, h => by
    simp [XElem.tag] at h
    simp [XElems.append1, filterBinderItems, XElem.tag, h, XElems.length]
  | .cons c cs, ne, h => by
    by_cases hc : c.tag = "BinderItem" <;>
      simp [XElems.append1, filterBinderItems, hc, XElems.length,
        filterBinderItems_append1 cs ne h] <;> omega

theorem cntC_cons_notChildren (ctag : String) (ca : List (String × String))
    (cx : Option String) (inner cs2 : XElems) (hc : ctag ≠ "Children") :
    cntC (.cons (.mk ctag ca cx inner) cs2) = cntC cs2 := by
  simp [cntC, XElems.findTag, XElem.tag, hc]

theorem cntC_addChildElem : ∀ (cs : XElems) (ne : XElem),
    ne.tag = "BinderItem" →
    cntC (addChildElem cs ne none) = cntC cs + 1
  | .nil, .mk nt na nx ncs, h => by
    simp [XElem.tag] at h
    simp [addChildElem, cntC, XElems.findTag, XElem.tag, XElem.children,
      filterBinderItems, h, XElems.length]
  | .cons (.mk ctag ca cx inner) cs2, ne, h => by
    by_cases hc : ctag = "Children"
    · subst hc
      simp [addChildElem, XElem.tag, insertIntoChildren, cntC, XElems.findTag,
        XElem.children, filterBinderItems_append1 inner ne h]
    · rw [show addChildElem (XElems.cons (.mk ctag ca cx inner) cs2) ne none =
          XElems.cons (.mk ctag ca cx inner) (addChildElem cs2 ne none) from by
        simp [addChildElem, XElem.tag, hc]]
      rw [cntC_cons_notChildren ctag ca cx inner _ hc,
        cntC_cons_notChildren ctag ca cx inner _ hc]
      exact cntC_addChildElem cs2 ne h

theorem binderChildCount_addChildToParent (e ne : XElem) (h : ne.tag = "BinderItem") :
    binderChildCount (addChildToParent e ne none) = binderChildCount e + 1 := by
  cases e with
  | mk t a x cs =>
    rw [binderChildCount_eq_cntC, binderChildCount_eq_cntC]
    show cntC (addChildElem cs ne none) = cntC cs + 1
    exact cntC_addChildElem cs ne h

/-! ### `setAttr` does not disturb the binder -/

theorem findBinderElem_setAttr (root : XElem) (k v u : String)
    (h : root.tag ≠ "BinderItem") :
    findBinderElem u (root.setAttr k v) = findBinderElem u root := by
  cases root with
  | mk t a x cs =>
    simp [XElem.tag] at h
    simp [XElem.setAttr, findBinderElem, h]

theorem parse_binder_setAttr (root : XElem) (k v : String) :
    parse_binder (root.setAttr k v) = parse_binder root := by
  cases root
  rfl

end Scriv

namespace Scriv

/-! ### Update/parse commutation for the binder index -/

mutual
theorem updE_none_of_noBinder (u : String) (f : XElem → XElem) :
    ∀ (e : XElem), noBinderB e = true → updE u f e = none
  | .mk tag attrs x cs, h => by
    simp only [noBinderB, Bool.and_eq_true, decide_eq_true_eq] at h
    simp [updE, h.1, updL_none_of_noBinder u f cs h.2]

theorem updL_none_of_noBinder (u : String) (f : XElem → XElem) :
    ∀ (es : XElems), noBinderL es = true → updL u f es = none
  | .nil, _ => rfl
  | .cons e es, h => by
    simp only [noBinderL, Bool.and_eq_true] at h
    simp [updL, updE_none_of_noBinder u f e h.1, updL_none_of_noBinder u f es h.2]
end

theorem updE_tag (u : String) (f : XElem → XElem) (hft : ∀ e, (f e).tag = e.tag) :
    ∀ (e e' : XElem), updE u f e = some e' → e'.tag = e.tag
  | .mk tag attrs x cs, e', h => by
    unfold updE at h
    split at h
    · rw [Option.some_inj] at h
      subst h
      exact hft _
    · split at h
      · rw [Option.some_inj] at h
        subst h
        rfl
      · exact absurd h (by simp)

end Scriv

namespace Scriv

theorem titleOf_cons_notTitle (ctag : String) (ca : List (String × String))
    (cx : Option String) (inner l : XElems) (h : ctag ≠ "Title") :
    titleOf (.cons (.mk ctag ca cx inner) l) = titleOf l := by
  unfold titleOf
  rw [show XElems.findTag (XElems.cons (.mk ctag ca cx inner) l) "Title" =
    XElems.findTag l "Title" from by simp [XElems.findTag, XElem.tag, h]]

theorem includeOf_cons_notMeta (ctag : String) (ca : List (String × String))
    (cx : Option String) (inner l : XElems) (h : ctag ≠ "MetaData") :
    includeOf (.cons (.mk ctag ca cx inner) l) = includeOf l := by
  unfold includeOf
  rw [show XElems.findTag (XElems.cons (.mk ctag ca cx inner) l) "MetaData" =
    XElems.findTag l "MetaData" from by simp [XElems.findTag, XElem.tag, h]]

mutual
/-- Updating the first matching `BinderItem` element and then parsing
equals parsing and then updating the first matching binder item. -/
theorem updE_parse (u : String) (f : XElem → XElem) (g : BItem → BItem)
    (hft : ∀ e, (f e).tag = e.tag)
    (hfg : ∀ e, wfBinderElem e = true → attrGet e.attrs "UUID" = some u →
      parse_binder_item (f e) = g (parse_binder_item e)) :
    ∀ (e : XElem), wfBinderElem e = true →
      Option.map parse_binder_item (updE u f e) = updItemE u g (parse_binder_item e)
  | .mk tag attrs x cs, hwf => by
    have hw := hwf
    simp only [wfBinderElem, Bool.and_eq_true, decide_eq_true_eq,
      Option.isSome_iff_exists] at hw
    obtain ⟨⟨htag, v, hv⟩, hcs⟩ := hw
    subst htag
    have hparse : parse_binder_item (.mk "BinderItem" attrs x cs) =
        .mk v (titleOf cs) ((attrGet attrs "Type").getD "Text") (attrGet attrs "Created")
          (attrGet attrs "Modified") (includeOf cs) (parseChildrenOf cs) := by
      simp [parse_binder_item, hv]
    by_cases hvu : v = u
    · subst hvu
      rw [show updE v f (.mk "BinderItem" attrs x cs) =
          some (f (.mk "BinderItem" attrs x cs)) from by simp [updE, hv]]
      rw [hparse]
      rw [show updItemE v g (.mk v (titleOf cs) ((attrGet attrs "Type").getD "Text")
          (attrGet attrs "Created") (attrGet attrs "Modified") (includeOf cs)
          (parseChildrenOf cs)) =
          some (g (.mk v (titleOf cs) ((attrGet attrs "Type").getD "Text")
          (attrGet attrs "Created") (attrGet attrs "Modified") (includeOf cs)
          (parseChildrenOf cs))) from by simp [updItemE]]
      rw [show Option.map parse_binder_item (some (f (.mk "BinderItem" attrs x cs))) =
          some (parse_binder_item (f (.mk "BinderItem" attrs x cs))) from rfl]
      rw [hfg _ hwf hv, hparse]
    · rw [show updE u f (.mk "BinderItem" attrs x cs) =
          (match updL u f cs with
           | some cs' => some (.mk "BinderItem" attrs x cs')
           | none => none) from by simp [updE, hv, hvu]]
      rw [hparse]
      rw [show updItemE u g (.mk v (titleOf cs) ((attrGet attrs "Type").getD "Text")
          (attrGet attrs "Created") (attrGet attrs "Modified") (includeOf cs)
          (parseChildrenOf cs)) =
          (match updItemL u g (parseChildrenOf cs) with
           | some cs' => some (.mk v (titleOf cs) ((attrGet attrs "Type").getD "Text")
               (attrGet attrs "Created") (attrGet attrs "Modified") (includeOf cs) cs')
           | none => none) from by simp [updItemE, hvu]]
      cases hL : updL u f cs with
      | none =>
        have h1 := (updChildren_parse u f g hft hfg cs hcs).1 hL
        rw [h1]
        rfl
      | some cs' =>
        obtain ⟨hitem, htit, hinc⟩ := (updChildren_parse u f g hft hfg cs hcs).2 cs' hL
        rw [hitem]
        simp [parse_binder_item, hv, htit, hinc]

/-- The children-list version of `updE_parse`: scanning the children of a
well-formed binder element, the update lands inside the `Children`
element (or fails on both sides), and leaves the `Title` and `MetaData`
children untouched. -/
theorem updChildren_parse (u : String) (f : XElem → XElem) (g : BItem → BItem)
    (hft : ∀ e, (f e).tag = e.tag)
    (hfg : ∀ e, wfBinderElem e = true → attrGet e.attrs "UUID" = some u →
      parse_binder_item (f e) = g (parse_binder_item e)) :
    ∀ (cs : XElems), wfItemChildren cs = true →
      (updL u f cs = none → updItemL u g (parseChildrenOf cs) = none) ∧
      (∀ cs', updL u f cs = some cs' →
        updItemL u g (parseChildrenOf cs) = some (parseChildrenOf cs') ∧
        titleOf cs' = titleOf cs ∧ includeOf cs' = includeOf cs)
  | .nil, _ =>
    ⟨fun _ => rfl, fun cs' h => absurd h (by simp [updL])⟩
  | .cons (.mk ctag ca cx inner) cs2, hwf => by
    by_cases hc : ctag = "Children"
    · subst hc
      have hw := hwf
      simp only [wfItemChildren, if_true, eq_self_iff_true, Bool.and_eq_true] at hw
      obtain ⟨hF, hNB⟩ := hw
      have hCF := updForest_parse u f g hft hfg inner hF
      have hhead : updE u f (.mk "Children" ca cx inner) =
          (match updL u f inner with
           | some inner' => some (.mk "Children" ca cx inner')
           | none => none) := by simp [updE]
      have htail : updL u f cs2 = none := updL_none_of_noBinder u f cs2 hNB
      have hpc : parseChildrenOf (.cons (.mk "Children" ca cx inner) cs2) =
          parseBinderItems inner := by simp [parseChildrenOf]
      cases hI : updL u f inner with
      | none =>
        have hupd : updL u f (.cons (.mk "Children" ca cx inner) cs2) = none := by
          simp [updL, hhead, hI, htail]
        constructor
        · intro _
          rw [hpc]
          rw [hI] at hCF
          simpa using hCF.symm
        · intro cs' h
          rw [hupd] at h
          exact absurd h (by simp)
      | some inner' =>
        have hupd : updL u f (.cons (.mk "Children" ca cx inner) cs2) =
            some (.cons (.mk "Children" ca cx inner') cs2) := by
          simp [updL, hhead, hI]
        constructor
        · intro h
          rw [hupd] at h
          exact absurd h (by simp)
        · intro cs' h
          rw [hupd, Option.some_inj] at h
          subst h
          refine ⟨?_, ?_, ?_⟩
          · rw [hpc]
            rw [show parseChildrenOf (.cons (.mk "Children" ca cx inner') cs2) =
                parseBinderItems inner' from by simp [parseChildrenOf]]
            rw [hI] at hCF
            simpa using hCF.symm
          · rw [titleOf_cons_notTitle "Children" ca cx inner' cs2 (by decide),
              titleOf_cons_notTitle "Children" ca cx inner cs2 (by decide)]
          · rw [includeOf_cons_notMeta "Children" ca cx inner' cs2 (by decide),
              includeOf_cons_notMeta "Children" ca cx inner cs2 (by decide)]
    · have hw := hwf
      simp only [wfItemChildren, if_neg hc, Bool.and_eq_true] at hw
      obtain ⟨hNB, hwf2⟩ := hw
      have hhead : updE u f (.mk ctag ca cx inner) = none :=
        updE_none_of_noBinder u f _ hNB
      have hih := updChildren_parse u f g hft hfg cs2 hwf2
      have hpc : parseChildrenOf (.cons (.mk ctag ca cx inner) cs2) =
          parseChildrenOf cs2 := by simp [parseChildrenOf, hc]
      cases hT : updL u f cs2 with
      | none =>
        have hupd : updL u f (.cons (.mk ctag ca cx inner) cs2) = none := by
          simp [updL, hhead, hT]
        exact ⟨fun _ => by rw [hpc]; exact hih.1 hT,
          fun cs' h => by rw [hupd] at h; exact absurd h (by simp)⟩
      | some cs2' =>
        have hupd : updL u f (.cons (.mk ctag ca cx inner) cs2) =
            some (.cons (.mk ctag ca cx inner) cs2') := by
          simp [updL, hhead, hT]
        refine ⟨fun h => by rw [hupd] at h; exact absurd h (by simp), fun cs' h => ?_⟩
        rw [hupd, Option.some_inj] at h
        subst h
        obtain ⟨hitem, htit, hinc⟩ := hih.2 cs2' hT
        refine ⟨?_, ?_, ?_⟩
        · rw [hpc]
          rw [show parseChildrenOf (.cons (.mk ctag ca cx inner) cs2') =
              parseChildrenOf cs2' from by simp [parseChildrenOf, hc]]
          exact hitem
        · by_cases he : ctag = "Title"
          · subst he
            unfold titleOf
            rw [show XElems.findTag (XElems.cons (.mk "Title" ca cx inner) cs2') "Title" =
              some (.mk "Title" ca cx inner) from by simp [XElems.findTag, XElem.tag]]
            rw [show XElems.findTag (XElems.cons (.mk "Title" ca cx inner) cs2) "Title" =
              some (.mk "Title" ca cx inner) from by simp [XElems.findTag, XElem.tag]]
          · rw [titleOf_cons_notTitle ctag ca cx inner cs2' he,
              titleOf_cons_notTitle ctag ca cx inner cs2 he]
            exact htit
        · by_cases he : ctag = "MetaData"
          · subst he
            unfold includeOf
            rw [show XElems.findTag (XElems.cons (.mk "MetaData" ca cx inner) cs2') "MetaData" =
              some (.mk "MetaData" ca cx inner) from by simp [XElems.findTag, XElem.tag]]
            rw [show XElems.findTag (XElems.cons (.mk "MetaData" ca cx inner) cs2) "MetaData" =
              some (.mk "MetaData" ca cx inner) from by simp [XElems.findTag, XElem.tag]]
          · rw [includeOf_cons_notMeta ctag ca cx inner cs2' he,
              includeOf_cons_notMeta ctag ca cx inner cs2 he]
            exact hinc

/-- The forest version of `updE_parse`. -/
theorem updForest_parse (u : String) (f : XElem → XElem) (g : BItem → BItem)
    (hft : ∀ e, (f e).tag = e.tag)
    (hfg : ∀ e, wfBinderElem e = true → attrGet e.attrs "UUID" = some u →
      parse_binder_item (f e) = g (parse_binder_item e)) :
    ∀ (es : XElems), wfForest es = true →
      Option.map parseBinderItems (updL u f es) = updItemL u g (parseBinderItems es)
  | .nil, _ => rfl
  | .cons e es2, hwf => by
    have hw := hwf
    simp only [wfForest, Bool.and_eq_true] at hw
    obtain ⟨hwe, hwes⟩ := hw
    have htag : e.tag = "BinderItem" := by
      cases e with
      | mk t a x cs =>
        have := hwe
        simp only [wfBinderElem, Bool.and_eq_true, decide_eq_true_eq] at this
        simpa [XElem.tag] using this.1.1
    have hCE := updE_parse u f g hft hfg e hwe
    have hpb : parseBinderItems (.cons e es2) =
        .cons (parse_binder_item e) (parseBinderItems es2) := by
      simp [parseBinderItems, htag]
    cases hE : updE u f e with
    | some e1 =>
      rw [hE] at hCE
      have htag1 : e1.tag = "BinderItem" := by
        rw [updE_tag u f hft e e1 hE, htag]
      have hupd : updL u f (.cons e es2) = some (.cons e1 es2) := by
        simp [updL, hE]
      rw [hupd, hpb]
      rw [show Option.map parseBinderItems (some (XElems.cons e1 es2)) =
          some (parseBinderItems (.cons e1 es2)) from rfl]
      rw [show parseBinderItems (.cons e1 es2) =
          .cons (parse_binder_item e1) (parseBinderItems es2) from by
        simp [parseBinderItems, htag1]]
      rw [show updItemL u g (.cons (parse_binder_item e) (parseBinderItems es2)) =
          (match updItemE u g (parse_binder_item e) with
           | some it' => some (.cons it' (parseBinderItems es2))
           | none =>
             match updItemL u g (parseBinderItems es2) with
             | some its' => some (.cons (parse_binder_item e) its')
             | none => none) from by simp [updItemL]]
      rw [← hCE]
      rfl
    | none =>
      rw [hE] at hCE
      have hIH := updForest_parse u f g hft hfg es2 hwes
      rw [hpb]
      rw [show updItemL u g (.cons (parse_binder_item e) (parseBinderItems es2)) =
          (match updItemE u g (parse_binder_item e) with
           | some it' => some (.cons it' (parseBinderItems es2))
           | none =>
             match updItemL u g (parseBinderItems es2) with
             | some its' => some (.cons (parse_binder_item e) its')
             | none => none) from by simp [updItemL]]
      rw [← hCE]
      cases hT : updL u f es2 with
      | none =>
        rw [hT] at hIH
        have hupd : updL u f (.cons e es2) = none := by
          simp [updL, hE, hT]
        rw [hupd, ← hIH]
        rfl
      | some es2' =>
        rw [hT] at hIH
        have hupd : updL u f (.cons e es2) = some (.cons e es2') := by
          simp [updL, hE, hT]
        rw [hupd, ← hIH]
        rw [show Option.map parseBinderItems (some (XElems.cons e es2')) =
            some (parseBinderItems (.cons e es2')) from rfl]
        have htag' : e.tag = "BinderItem" := htag
        rw [show parseBinderItems (.cons e es2') =
            .cons (parse_binder_item e) (parseBinderItems es2') from by
          simp [parseBinderItems, htag']]
        rfl
end

end Scriv

namespace Scriv

/-- Root-level version of the commutation: scanning the index root's
children, the update lands inside the `Binder` element. -/
theorem updRoot_parse (u : String) (f : XElem → XElem) (g : BItem → BItem)
    (hft : ∀ e, (f e).tag = e.tag)
    (hfg : ∀ e, wfBinderElem e = true → attrGet e.attrs "UUID" = some u →
      parse_binder_item (f e) = g (parse_binder_item e)) :
    ∀ (rcs : XElems), rootChildrenOk rcs = true →
      (updL u f rcs = none → updItemL u g (parseBinderOf rcs) = none) ∧
      (∀ rcs', updL u f rcs = some rcs' →
        updItemL u g (parseBinderOf rcs) = some (parseBinderOf rcs'))
  | .nil, _ => ⟨fun _ => rfl, fun rcs' h => absurd h (by simp [updL])⟩
  | .cons (.mk ctag ca cx inner) cs2, hwf => by
    by_cases hc : ctag = "Binder"
    · subst hc
      have hw := hwf
      simp only [rootChildrenOk, if_true, eq_self_iff_true, Bool.and_eq_true] at hw
      obtain ⟨hF, hNB⟩ := hw
      have hCF := updForest_parse u f g hft hfg inner hF
      have hhead : updE u f (.mk "Binder" ca cx inner) =
          (match updL u f inner with
           | some inner' => some (.mk "Binder" ca cx inner')
           | none => none) := by simp [updE]
      have htail : updL u f cs2 = none := updL_none_of_noBinder u f cs2 hNB
      have hpb : parseBinderOf (.cons (.mk "Binder" ca cx inner) cs2) =
          parseBinderItems inner := by
        simp [parseBinderOf, XElems.findTag, XElem.tag, XElem.children]
      cases hI : updL u f inner with
      | none =>
        have hupd : updL u f (.cons (.mk "Binder" ca cx inner) cs2) = none := by
          simp [updL, hhead, hI, htail]
        refine ⟨fun _ => ?_, fun rcs' h => by rw [hupd] at h; exact absurd h (by simp)⟩
        rw [hpb]
        rw [hI] at hCF
        simpa using hCF.symm
      | some inner' =>
        have hupd : updL u f (.cons (.mk "Binder" ca cx inner) cs2) =
            some (.cons (.mk "Binder" ca cx inner') cs2) := by
          simp [updL, hhead, hI]
        refine ⟨fun h => by rw [hupd] at h; exact absurd h (by simp), fun rcs' h => ?_⟩
        rw [hupd, Option.some_inj] at h
        subst h
        rw [hpb]
        rw [show parseBinderOf (.cons (.mk "Binder" ca cx inner') cs2) =
            parseBinderItems inner' from by
          simp [parseBinderOf, XElems.findTag, XElem.tag, XElem.children]]
        rw [hI] at hCF
        simpa using hCF.symm
    · have hw := hwf
      simp only [rootChildrenOk, if_neg hc, Bool.and_eq_true] at hw
      obtain ⟨hNB, hwf2⟩ := hw
      have hhead : updE u f (.mk ctag ca cx inner) = none :=
        updE_none_of_noBinder u f _ hNB
      have hih := updRoot_parse u f g hft hfg cs2 hwf2
      have hpb : parseBinderOf (.cons (.mk ctag ca cx inner) cs2) = parseBinderOf cs2 := by
        simp [parseBinderOf, XElems.findTag, XElem.tag, hc]
      cases hT : updL u f cs2 with
      | none =>
        have hupd : updL u f (.cons (.mk ctag ca cx inner) cs2) = none := by
          simp [updL, hhead, hT]
        exact ⟨fun _ => by rw [hpb]; exact hih.1 hT,
          fun rcs' h => by rw [hupd] at h; exact absurd h (by simp)⟩
      | some cs2' =>
        have hupd : updL u f (.cons (.mk ctag ca cx inner) cs2) =
            some (.cons (.mk ctag ca cx inner) cs2') := by
          simp [updL, hhead, hT]
        refine ⟨fun h => by rw [hupd] at h; exact absurd h (by simp), fun rcs' h => ?_⟩
        rw [hupd, Option.some_inj] at h
        subst h
        rw [hpb]
        rw [show parseBinderOf (.cons (.mk ctag ca cx inner) cs2') = parseBinderOf cs2' from by
          simp [parseBinderOf, XElems.findTag, XElem.tag, hc]]
        exact hih.2 cs2' hT

end Scriv

namespace Scriv

/-! ### Locating the updated element again (`_find_binder_item_element`) -/

mutual
theorem findBinderElem_none_of_updE_none (u : String) (f : XElem → XElem) :
    ∀ (e : XElem), updE u f e = none → findBinderElem u e = none
  | .mk tag attrs x cs, h => by
    unfold updE at h
    split at h
    · exact absurd h (by simp)
    · rename_i hcond
      unfold findBinderElem
      rw [if_neg hcond]
      split at h
      · exact absurd h (by simp)
      · rename_i hnone
        exact findBinderElemL_none_of_updL_none u f cs hnone

theorem findBinderElemL_none_of_updL_none (u : String) (f : XElem → XElem) :
    ∀ (es : XElems), updL u f es = none → findBinderElemL u es = none
  | .nil, _ => rfl
  | .cons e es, h => by
    unfold updL at h
    cases hE : updE u f e with
    | some e' =>
      rw [hE] at h
      exact absurd h (by simp)
    | none =>
      rw [hE] at h
      cases hT : updL u f es with
      | some es' =>
        rw [hT] at h
        exact absurd h (by simp)
      | none =>
        simp [findBinderElemL, findBinderElem_none_of_updE_none u f e hE,
          findBinderElemL_none_of_updL_none u f es hT]
end

theorem findBinderElem_self (u : String) (e : XElem)
    (hcond : (e.tag = "BinderItem" && attrGet e.attrs "UUID" = some u) = true) :
    findBinderElem u e = some e := by
  cases e with
  | mk tag attrs x cs =>
    simp only [XElem.tag, XElem.attrs] at hcond
    unfold findBinderElem
    rw [if_pos hcond]

mutual
theorem findBinderElem_upd (u : String) (f : XElem → XElem)
    (hft : ∀ e, (f e).tag = e.tag)
    (hfa : ∀ e, attrGet (f e).attrs "UUID" = attrGet e.attrs "UUID") :
    ∀ (e e' : XElem), updE u f e = some e' →
      ∃ pe, findBinderElem u e = some pe ∧ findBinderElem u e' = some (f pe)
  | .mk tag attrs x cs, e', h => by
    unfold updE at h
    split at h
    · rename_i hcond
      rw [Option.some_inj] at h
      subst h
      refine ⟨.mk tag attrs x cs, findBinderElem_self u _ hcond, ?_⟩
      refine findBinderElem_self u _ ?_
      rw [show (f (.mk tag attrs x cs)).tag = (XElem.mk tag attrs x cs).tag from hft _,
        show attrGet (f (.mk tag attrs x cs)).attrs "UUID" =
          attrGet (XElem.mk tag attrs x cs).attrs "UUID" from hfa _]
      exact hcond
    · rename_i hcond
      split at h
      · rename_i cs' hcs'
        rw [Option.some_inj] at h
        subst h
        obtain ⟨pe, h1, h2⟩ := findBinderElemL_upd u f hft hfa cs cs' hcs'
        refine ⟨pe, ?_, ?_⟩
        · unfold findBinderElem
          rw [if_neg hcond]
          exact h1
        · unfold findBinderElem
          rw [if_neg hcond]
          exact h2
      · exact absurd h (by simp)

theorem findBinderElemL_upd (u : String) (f : XElem → XElem)
    (hft : ∀ e, (f e).tag = e.tag)
    (hfa : ∀ e, attrGet (f e).attrs "UUID" = attrGet e.attrs "UUID") :
    ∀ (es es' : XElems), updL u f es = some es' →
      ∃ pe, findBinderElemL u es = some pe ∧ findBinderElemL u es' = some (f pe)
  | .nil, es', h => absurd h (by simp [updL])
  | .cons e es, es', h => by
    unfold updL at h
    cases hE : updE u f e with
    | some e1 =>
      rw [hE, Option.some_inj] at h
      subst h
      obtain ⟨pe, h1, h2⟩ := findBinderElem_upd u f hft hfa e e1 hE
      exact ⟨pe, by simp [findBinderElemL, h1], by simp [findBinderElemL, h2]⟩
    | none =>
      rw [hE] at h
      have hfe : findBinderElem u e = none := findBinderElem_none_of_updE_none u f e hE
      cases hT : updL u f es with
      | some es2 =>
        rw [hT, Option.some_inj] at h
        subst h
        obtain ⟨pe, h1, h2⟩ := findBinderElemL_upd u f hft hfa es es2 hT
        exact ⟨pe, by simp [findBinderElemL, hfe, h1], by simp [findBinderElemL, hfe, h2]⟩
      | none =>
        rw [hT] at h
        exact absurd h (by simp)
end

end Scriv

namespace Scriv

/-! ### Walk surgery for the first-match item update -/

mutual
theorem walkAnc_no_uuid_of_updItemE_none (u : String) (g : BItem → BItem) :
    ∀ (it : BItem) (a : List String), updItemE u g it = none →
      ∀ pr ∈ BItem.walkAnc a it, pr.2.uuid ≠ u
  | .mk u0 t ty cr mo inc cs, a, h, pr, hpr => by
    unfold updItemE at h
    split at h
    · exact absurd h (by simp)
    · rename_i hu0
      split at h
      · exact absurd h (by simp)
      · rename_i hnone
        simp only [BItem.walkAnc, List.mem_cons] at hpr
        cases hpr with
        | inl heq =>
          subst heq
          simpa [BItem.uuid] using hu0
        | inr hmem =>
          exact walkAncF_no_uuid_of_updItemL_none u g cs (a ++ [t]) hnone pr hmem

theorem walkAncF_no_uuid_of_updItemL_none (u : String) (g : BItem → BItem) :
    ∀ (its : BItems) (a : List String), updItemL u g its = none →
      ∀ pr ∈ BItems.walkAncF a its, pr.2.uuid ≠ u
  | .nil, a, _, pr, hpr => by simp [BItems.walkAncF] at hpr
  | .cons it its, a, h, pr, hpr => by
    unfold updItemL at h
    cases hE : updItemE u g it with
    | some it' =>
      rw [hE] at h
      exact absurd h (by simp)
    | none =>
      rw [hE] at h
      cases hT : updItemL u g its with
      | some its' =>
        rw [hT] at h
        exact absurd h (by simp)
      | none =>
        simp only [BItems.walkAncF, List.mem_append] at hpr
        cases hpr with
        | inl hmem => exact walkAnc_no_uuid_of_updItemE_none u g it a hE pr hmem
        | inr hmem => exact walkAncF_no_uuid_of_updItemL_none u g its a hT pr hmem
end

mutual
/-- Surgery description of the walk of an updated item, for the
append-child update: the walk splits around the matched subtree; the
pairs before it keep their identifiers and paths, the matched item gets
the new child appended, and the new item's pair is inserted right after
the matched subtree's pairs. -/
theorem updItemE_walk_surgery (u : String) (ni : BItem) (hni : ni.children = .nil) :
    ∀ (it : BItem) (a : List String) (it' : BItem),
      updItemE u (fun x => snocChild x ni) it = some it' →
      ∃ pre pre' mid post ancP pa,
        pa.uuid = u ∧
        BItem.walkAnc a it = pre ++ ((ancP, pa) :: mid) ++ post ∧
        BItem.walkAnc a it' =
          pre' ++ ((ancP, snocChild pa ni) :: (mid ++ [(ancP ++ [pa.title], ni)])) ++ post ∧
        pre'.map (fun pr => pr.2.uuid) = pre.map (fun pr => pr.2.uuid) ∧
        pre'.map (fun pr => pathOf pr.1 pr.2) = pre.map (fun pr => pathOf pr.1 pr.2) ∧
        (∀ pr ∈ pre, pr.2.uuid ≠ u)
  | .mk u0 t ty cr mo inc cs, a, it', h => by
    unfold updItemE at h
    split at h
    · rename_i hu0
      rw [Option.some_inj] at h
      subst h
      refine ⟨[], [], BItems.walkAncF (a ++ [t]) cs, [], a, .mk u0 t ty cr mo inc cs,
        by simpa [BItem.uuid] using hu0, by simp [BItem.walkAnc], ?_, rfl, rfl, by simp⟩
      show BItem.walkAnc a (snocChild (.mk u0 t ty cr mo inc cs) ni) = _
      rw [show snocChild (.mk u0 t ty cr mo inc cs) ni =
          .mk u0 t ty cr mo inc (cs.snoc ni) from rfl]
      rw [show BItem.walkAnc a (.mk u0 t ty cr mo inc (cs.snoc ni)) =
          (a, .mk u0 t ty cr mo inc (cs.snoc ni)) ::
            BItems.walkAncF (a ++ [t]) (cs.snoc ni) from rfl]
      rw [walkAncF_snoc cs (a ++ [t]) ni, walkAnc_childless (a ++ [t]) ni hni]
      simp [BItem.title]
    · rename_i hu0
      split at h
      · rename_i cs' hcs'
        rw [Option.some_inj] at h
        subst h
        obtain ⟨pre, pre', mid, post, ancP, pa, hpa, h2, h3, h4, h5, h6⟩ :=
          updItemL_walk_surgery u ni hni cs (a ++ [t]) cs' hcs'
        refine ⟨(a, .mk u0 t ty cr mo inc cs) :: pre,
          (a, .mk u0 t ty cr mo inc cs') :: pre', mid, post, ancP, pa, hpa, ?_, ?_, ?_, ?_, ?_⟩
        · rw [show BItem.walkAnc a (.mk u0 t ty cr mo inc cs) =
              (a, .mk u0 t ty cr mo inc cs) :: BItems.walkAncF (a ++ [t]) cs from rfl, h2]
          simp
        · rw [show BItem.walkAnc a (.mk u0 t ty cr mo inc cs') =
              (a, .mk u0 t ty cr mo inc cs') :: BItems.walkAncF (a ++ [t]) cs' from rfl, h3]
          simp
        · simp only [List.map_cons]
          rw [h4]
          rfl
        · simp only [List.map_cons]
          rw [h5]
          rfl
        · intro pr hpr
          simp only [List.mem_cons] at hpr
          cases hpr with
          | inl heq =>
            subst heq
            simpa [BItem.uuid] using hu0
          | inr hmem => exact h6 pr hmem
      · exact absurd h (by simp)

theorem updItemL_walk_surgery (u : String) (ni : BItem) (hni : ni.children = .nil) :
    ∀ (its : BItems) (a : List String) (its' : BItems),
      updItemL u (fun x => snocChild x ni) its = some its' →
      ∃ pre pre' mid post ancP pa,
        pa.uuid = u ∧
        BItems.walkAncF a its = pre ++ ((ancP, pa) :: mid) ++ post ∧
        BItems.walkAncF a its' =
          pre' ++ ((ancP, snocChild pa ni) :: (mid ++ [(ancP ++ [pa.title], ni)])) ++ post ∧
        pre'.map (fun pr => pr.2.uuid) = pre.map (fun pr => pr.2.uuid) ∧
        pre'.map (fun pr => pathOf pr.1 pr.2) = pre.map (fun pr => pathOf pr.1 pr.2) ∧
        (∀ pr ∈ pre, pr.2.uuid ≠ u)
  | .nil, a, its', h => absurd h (by simp [updItemL])
  | .cons it its, a, its', h => by
    unfold updItemL at h
    cases hE : updItemE u (fun x => snocChild x ni) it with
    | some it1 =>
      rw [hE, Option.some_inj] at h
      subst h
      obtain ⟨pre, pre', mid, post, ancP, pa, hpa, h2, h3, h4, h5, h6⟩ :=
        updItemE_walk_surgery u ni hni it a it1 hE
      refine ⟨pre, pre', mid, post ++ BItems.walkAncF a its, ancP, pa, hpa, ?_, ?_, h4, h5, h6⟩
      · rw [show BItems.walkAncF a (.cons it its) =
            BItem.walkAnc a it ++ BItems.walkAncF a its from rfl, h2]
        simp
      · rw [show BItems.walkAncF a (.cons it1 its) =
            BItem.walkAnc a it1 ++ BItems.walkAncF a its from rfl, h3]
        simp
    | none =>
      rw [hE] at h
      cases hT : updItemL u (fun x => snocChild x ni) its with
      | some its2 =>
        rw [hT, Option.some_inj] at h
        subst h
        obtain ⟨pre, pre', mid, post, ancP, pa, hpa, h2, h3, h4, h5, h6⟩ :=
          updItemL_walk_surgery u ni hni its a its2 hT
        refine ⟨BItem.walkAnc a it ++ pre, BItem.walkAnc a it ++ pre', mid, post,
          ancP, pa, hpa, ?_, ?_, ?_, ?_, ?_⟩
        · rw [show BItems.walkAncF a (.cons it its) =
              BItem.walkAnc a it ++ BItems.walkAncF a its from rfl, h2]
          simp
        · rw [show BItems.walkAncF a (.cons it its2) =
              BItem.walkAnc a it ++ BItems.walkAncF a its2 from rfl, h3]
          simp
        · simp [h4]
        · simp [h5]
        · intro pr hpr
          simp only [List.mem_append] at hpr
          cases hpr with
          | inl hmem => exact walkAnc_no_uuid_of_updItemE_none u _ it a hE pr hmem
          | inr hmem => exact h6 pr hmem
      | none =>
        rw [hT] at h
        exact absurd h (by simp)
end

end Scriv

namespace Scriv

/-! ### Finding in a decomposed walk -/

theorem find?_append_decomp_head {α : Type} (pred : α → Bool) (pre rest post : List α) (x : α)
    (hpre : ∀ b ∈ pre, pred b = false) (hx : pred x = true) :
    (pre ++ (x :: rest) ++ post).find? pred = some x := by
  have h1 : pre.find? pred = none :=
    List.find?_eq_none.mpr (fun b hb => by simp [hpre b hb])
  simp [List.find?_append, h1, List.find?_cons, hx]

theorem find?_append_decomp_mid {α : Type} (pred : α → Bool) (pre mid post : List α) (x y : α)
    (hpre : ∀ b ∈ pre, pred b = false) (hx : pred x = false)
    (hmid : ∀ b ∈ mid, pred b = false) (hy : pred y = true) :
    (pre ++ (x :: (mid ++ [y])) ++ post).find? pred = some y := by
  have h1 : pre.find? pred = none :=
    List.find?_eq_none.mpr (fun b hb => by simp [hpre b hb])
  have h2 : mid.find? pred = none :=
    List.find?_eq_none.mpr (fun b hb => by simp [hmid b hb])
  simp [List.find?_append, h1, h2, List.find?_cons, hx, hy]

theorem find_by_uuid_eq_walkAnc (p : Project) (u : String) :
    find_by_uuid p u =
      ((BItems.walkAncF [] (binder_items p)).find? (fun pr => pr.2.uuid = u)).map
        (fun pr => pr.2) := by
  unfold find_by_uuid all_items
  rw [← walkAncF_map_snd (binder_items p) [], List.find?_map]
  rfl

theorem mem_all_items_of_walkAnc (p : Project) (pr : List String × BItem)
    (h : pr ∈ BItems.walkAncF [] (binder_items p)) : pr.2 ∈ all_items p := by
  unfold all_items
  rw [← walkAncF_map_snd (binder_items p) []]
  exact List.mem_map_of_mem _ h

theorem snocChild_uuid (it ni : BItem) : (snocChild it ni).uuid = it.uuid := by
  cases it
  rfl

theorem snocChild_title (it ni : BItem) : (snocChild it ni).title = it.title := by
  cases it
  rfl

theorem pathOf_snocChild (anc : List String) (it ni : BItem) :
    pathOf anc (snocChild it ni) = pathOf anc it := by
  cases it
  rfl

/-- The binder item `create_document` adds: the parse of the element it
builds. -/
def newItemOf (title : String) (inc : Bool) (w ts : String) : BItem :=
  parse_binder_item (newBinderElem title inc w ts)

theorem newItemOf_uuid (title : String) (inc : Bool) (w ts : String) :
    (newItemOf title inc w ts).uuid = w := by
  rw [newItemOf, parse_newBinderElem]
  rfl

theorem newItemOf_children (title : String) (inc : Bool) (w ts : String) :
    (newItemOf title inc w ts).children = .nil := by
  rw [newItemOf, parse_newBinderElem]
  rfl

end Scriv

namespace Scriv

/-- The filesystem after `create_document`'s initial content/synopsis
writes (the `fs1`/`fs2` lets of the source). -/
def cdFs (fs : FS) (content synopsis : String) (w : String) : FS :=
  if synopsis ≠ "" then
    FS.write (if content ≠ "" then FS.write fs (contentPath w) (text_to_rtf content) else fs)
      (synopsisPath w) synopsis
  else if content ≠ "" then FS.write fs (contentPath w) (text_to_rtf content) else fs

/-- Computation of `create_document` in the success path: with the lock
absent, a folder parent, and the parent element found in the XML, the
operation returns the project holding the updated, restamped index and
the freshly resolved item. -/
theorem create_document_eq (p : Project) (title : String) (parent : BItem)
    (content synopsis : String) (inc : Bool) (pos : Option Nat) (w ts mid2 : String)
    (xml1 : XElem)
    (hlock : is_locked p = false) (hfold : parent.is_folder = true)
    (hupd : updE parent.uuid
      (fun pe => addChildToParent pe (newBinderElem title inc w ts) pos) p.scrivx =
      some xml1) :
    ∃ p2 : Project,
      create_document p title parent content synopsis inc pos w ts mid2 =
        .ok (p2, find_by_uuid p2 w) ∧
      p2.scrivx = (xml1.setAttr "Modified" ts).setAttr "ModID" mid2 := by
  refine ⟨({ fs := cdFs p.fs content synopsis w
             scrivx := (xml1.setAttr "Modified" ts).setAttr "ModID" mid2 } : Project), ?_, rfl⟩
  unfold create_document
  rw [hlock, hfold]
  simp only [Bool.false_eq_true, if_false, Bool.not_true]
  rw [hupd]
  rfl

end Scriv

namespace Scriv

/-- C3 amended: `create_document` fails with `Locked` under the lock
sentinel and with `InvalidTarget` for a non-folder parent; otherwise,
with a fresh generated identifier (the modelled `uuid4` oracle) on a
well-formed index whose first depth-first entry with the parent's
identifier is the given parent, it returns the new text entry, appends it
as the last child of that parent in the rebuilt tree, increases the index
file's `BinderItem` child-element count under the parent element by
exactly one, and the new entry is resolvable by `find_by_path` provided
no existing entry computes the same path string. -/
theorem c3_create_document (p : Project) (title : String) (parent : BItem)
    (content synopsis : String) (inc : Bool) (w ts mid2 : String) (ancP : List String) :
    (is_locked p = true →
      create_document p title parent content synopsis inc none w ts mid2 = .error .Locked) ∧
    (is_locked p = false → parent.is_folder = false →
      create_document p title parent content synopsis inc none w ts mid2 =
        .error .InvalidTarget) ∧
    (is_locked p = false → parent.is_folder = true →
     rootOk p.scrivx = true →
     findAncU (binder_items p) parent.uuid = some (ancP, parent) →
     (∀ it2 ∈ all_items p, it2.uuid ≠ w) →
     (∀ pr ∈ BItems.walkAncF [] (binder_items p),
        pathOf pr.1 pr.2 ≠ pathOf (ancP ++ [parent.title]) (newItemOf title inc w ts)) →
     ∃ p2, create_document p title parent content synopsis inc none w ts mid2 =
         .ok (p2, some (newItemOf title inc w ts)) ∧
       newItemOf title inc w ts =
         .mk w (if title = "" then "Untitled" else title) "Text" (some ts) (some ts) inc .nil ∧
       (∀ it2 ∈ all_items p, it2.uuid ≠ (newItemOf title inc w ts).uuid) ∧
       find_by_uuid p2 parent.uuid = some (snocChild parent (newItemOf title inc w ts)) ∧
       (snocChild parent (newItemOf title inc w ts)).children =
         BItems.snoc parent.children (newItemOf title inc w ts) ∧
       find_by_path p2 (pathOf (ancP ++ [parent.title]) (newItemOf title inc w ts)) =
         some (newItemOf title inc w ts) ∧
       ∃ pe pe2, findBinderElem parent.uuid p.scrivx = some pe ∧
         findBinderElem parent.uuid p2.scrivx = some pe2 ∧
         binderChildCount pe2 = binderChildCount pe + 1) := by
  refine ⟨?_, ?_, ?_⟩
  · intro h
    unfold create_document
    rw [h]
    rfl
  · intro h1 h2
    unfold create_document
    rw [h1, h2]
    rfl
  · intro hlock hfold hroot hanc hfresh hpath
    cases hx0 : p.scrivx with
    | mk rtag rattrs rx rcs =>
      rw [hx0] at hroot
      simp only [rootOk, Bool.and_eq_true, decide_eq_true_eq] at hroot
      obtain ⟨hrtag, hrcs⟩ := hroot
      have hbi : binder_items p = parseBinderOf rcs := by
        unfold binder_items
        rw [parse_binder_eq_parseBinderOf, hx0]
        rfl
      rw [hbi] at hanc hpath
      have hft : ∀ e, ((fun pe =>
          addChildToParent pe (newBinderElem title inc w ts) none) e).tag = e.tag :=
        fun e => addChildToParent_tag e _ none
      have hfa : ∀ e, attrGet ((fun pe =>
          addChildToParent pe (newBinderElem title inc w ts) none) e).attrs "UUID" =
          attrGet e.attrs "UUID" :=
        fun e => by rw [addChildToParent_attrs]
      have hfg : ∀ e, wfBinderElem e = true → attrGet e.attrs "UUID" = some parent.uuid →
          parse_binder_item ((fun pe =>
            addChildToParent pe (newBinderElem title inc w ts) none) e) =
          (fun x => snocChild x (newItemOf title inc w ts)) (parse_binder_item e) :=
        fun e _ _ => parse_addChildToParent e _ rfl
      have RC := updRoot_parse parent.uuid
        (fun pe => addChildToParent pe (newBinderElem title inc w ts) none)
        (fun x => snocChild x (newItemOf title inc w ts)) hft hfg rcs hrcs
      cases hL0 : updL parent.uuid
          (fun pe => addChildToParent pe (newBinderElem title inc w ts) none) rcs with
      | none =>
        exfalso
        have hnone := RC.1 hL0
        have hnou := walkAncF_no_uuid_of_updItemL_none parent.uuid _
          (parseBinderOf rcs) [] hnone
        unfold findAncU at hanc
        have hmem := List.mem_of_find?_eq_some hanc
        exact hnou _ hmem rfl
      | some rcs' =>
        have hupdE : updE parent.uuid
            (fun pe => addChildToParent pe (newBinderElem title inc w ts) none)
            p.scrivx = some (XElem.mk rtag rattrs rx rcs') := by
          rw [hx0]
          simp [updE, hrtag, hL0]
        have hcomm := RC.2 rcs' hL0
        have hni : (newItemOf title inc w ts).children = .nil := newItemOf_children _ _ _ _
        obtain ⟨pre, pre', mid, post, ancP', pa, hpa, h2, h3, h4, h5, h6⟩ :=
          updItemL_walk_surgery parent.uuid _ hni (parseBinderOf rcs) []
            (parseBinderOf rcs') hcomm
        have hfindOld : (BItems.walkAncF [] (parseBinderOf rcs)).find?
            (fun pr => pr.2.uuid = parent.uuid) = some (ancP', pa) := by
          rw [h2]
          exact find?_append_decomp_head _ pre mid post (ancP', pa)
            (fun b hb => by simp [h6 b hb]) (by simp [hpa])
        unfold findAncU at hanc
        rw [hfindOld, Option.some_inj, Prod.mk.injEq] at hanc
        obtain ⟨hA1, hA2⟩ := hanc
        subst hA1
        subst hA2
        obtain ⟨p2, hcd, hscr2⟩ := create_document_eq p title pa content synopsis inc
          none w ts mid2 (XElem.mk rtag rattrs rx rcs') hlock hfold hupdE
        have hbi2 : binder_items p2 = parseBinderOf rcs' := by
          unfold binder_items
          rw [hscr2, parse_binder_setAttr, parse_binder_setAttr,
            parse_binder_eq_parseBinderOf]
          rfl
        have hmemPre : ∀ c ∈ pre, c ∈ BItems.walkAncF [] (parseBinderOf rcs) := by
          intro c hc
          rw [h2]
          exact List.mem_append.mpr (Or.inl (List.mem_append.mpr (Or.inl hc)))
        have hmemX : (ancP', pa) ∈ BItems.walkAncF [] (parseBinderOf rcs) := by
          rw [h2]
          exact List.mem_append.mpr (Or.inl (List.mem_append.mpr
            (Or.inr (List.mem_cons_self _ _))))
        have hmemMid : ∀ c ∈ mid, c ∈ BItems.walkAncF [] (parseBinderOf rcs) := by
          intro c hc
          rw [h2]
          exact List.mem_append.mpr (Or.inl (List.mem_append.mpr
            (Or.inr (List.mem_cons_of_mem _ hc))))
        have hWold : ∀ c, c ∈ BItems.walkAncF [] (parseBinderOf rcs) → c.2.uuid ≠ w := by
          intro c hc
          exact hfresh c.2 (mem_all_items_of_walkAnc p c (by rw [hbi]; exact hc))
        have hpre'U : ∀ b ∈ pre', b.2.uuid ≠ w := by
          intro b hb
          have h9 : b.2.uuid ∈ pre'.map (fun pr => pr.2.uuid) :=
            List.mem_map_of_mem _ hb
          rw [h4] at h9
          obtain ⟨c, hc, hcu⟩ := List.mem_map.mp h9
          rw [← hcu]
          exact hWold c (hmemPre c hc)
        have hpre'Pu : ∀ b ∈ pre', b.2.uuid ≠ pa.uuid := by
          intro b hb
          have h9 : b.2.uuid ∈ pre'.map (fun pr => pr.2.uuid) :=
            List.mem_map_of_mem _ hb
          rw [h4] at h9
          obtain ⟨c, hc, hcu⟩ := List.mem_map.mp h9
          rw [← hcu]
          exact h6 c hc
        have hpre'Path : ∀ b ∈ pre',
            pathOf b.1 b.2 ≠ pathOf (ancP' ++ [pa.title]) (newItemOf title inc w ts) := by
          intro b hb
          have h9 : pathOf b.1 b.2 ∈ pre'.map (fun pr => pathOf pr.1 pr.2) :=
            List.mem_map_of_mem _ hb
          rw [h5] at h9
          obtain ⟨c, hc, hcp⟩ := List.mem_map.mp h9
          rw [← hcp]
          exact hpath c (hmemPre c hc)
        have hFactA : find_by_uuid p2 w = some (newItemOf title inc w ts) := by
          rw [find_by_uuid_eq_walkAnc, hbi2, h3]
          rw [find?_append_decomp_mid _ pre' mid post _ _
            (fun b hb => by simp [hpre'U b hb])
            (by
              simp only [decide_eq_false_iff_not, snocChild_uuid]
              exact hWold _ hmemX)
            (fun b hb => by simp [hWold b (hmemMid b hb)])
            (by simp [newItemOf_uuid])]
          rfl
        have hFactB : find_by_uuid p2 pa.uuid =
            some (snocChild pa (newItemOf title inc w ts)) := by
          rw [find_by_uuid_eq_walkAnc, hbi2, h3]
          rw [find?_append_decomp_head _ pre'
            (mid ++ [(ancP' ++ [pa.title], newItemOf title inc w ts)]) post _
            (fun b hb => by simp [hpre'Pu b hb])
            (by simp [snocChild_uuid])]
          rfl
        have hFactC : find_by_path p2
            (pathOf (ancP' ++ [pa.title]) (newItemOf title inc w ts)) =
            some (newItemOf title inc w ts) := by
          unfold find_by_path
          rw [hbi2, h3]
          rw [find?_append_decomp_mid _ pre' mid post _ _
            (fun b hb => by simp [hpre'Path b hb])
            (by
              simp only [decide_eq_false_iff_not]
              rw [pathOf_snocChild]
              exact hpath _ hmemX)
            (fun b hb => by simp [hpath b (hmemMid b hb)])
            (by simp)]
          rfl
        obtain ⟨pe, hpe1, hpe2⟩ := findBinderElem_upd pa.uuid _ hft hfa
          p.scrivx (XElem.mk rtag rattrs rx rcs') hupdE
        have hsa : findBinderElem pa.uuid p2.scrivx =
            findBinderElem pa.uuid (XElem.mk rtag rattrs rx rcs') := by
          rw [hscr2]
          rw [findBinderElem_setAttr _ _ _ _ (by simpa [XElem.setAttr, XElem.tag] using hrtag)]
          rw [findBinderElem_setAttr _ _ _ _ (by simpa [XElem.tag] using hrtag)]
        refine ⟨p2, by rw [hcd, hFactA], parse_newBinderElem title inc w ts,
          (by intro it2 h9; rw [newItemOf_uuid]; exact hfresh it2 h9), hFactB,
          (by cases pa; rfl), hFactC,
          pe, addChildToParent pe (newBinderElem title inc w ts) none,
          (by rw [← hx0]; exact hpe1), ?_, ?_⟩
        · rw [hsa]
          exact hpe2
        · exact binderChildCount_addChildToParent pe _ rfl

end Scriv

namespace Scriv

/-- A project whose folder `P` already holds a text entry titled
`New Scene`. -/
def dupSceneXml : XElem :=
  rootElemOf (.cons (folderElem "P0" "P" "Folder"
    (.cons (sceneElem "OLD" "New Scene" false) .nil)) .nil)

def dupSceneProj : Project :=
  { fs := [], scrivx := dupSceneXml }

def dupSceneParent : BItem :=
  .mk "P0" "P" "Folder" none none false
    (.cons (.mk "OLD" "New Scene" "Text" none none false .nil) .nil)

/-- C3 as stated is false in its `findByPath` clause: when the parent
already has a child with the same title, the new entry (appended last)
computes the same path as the existing one, and a subsequent
`find_by_path` resolves to the older entry, not the new one. -/
theorem c3_counterexample :
    ((create_document dupSceneProj "New Scene" dupSceneParent "" "" true none
        "NEW" "TS" "MID").toOption.bind (fun pr => pr.2.map BItem.uuid)) = some "NEW" ∧
    ((create_document dupSceneProj "New Scene" dupSceneParent "" "" true none
        "NEW" "TS" "MID").toOption.bind
      (fun pr => (find_by_path pr.1 "P/New Scene").map BItem.uuid)) = some "OLD" ∧
    ("OLD" : String) ≠ "NEW" := by
  refine ⟨by decide, by decide, by decide⟩

/-- The parsed `Part One` folder of the sample project. -/
def p1Item : BItem :=
  .mk "P1" "Part One" "Folder" none none false (.cons s1Item (.cons s2Item .nil))

/-- Witness for C3's amended theorem: creating `New Scene` under
`Part One` in the sample project. -/
theorem c3_witness :
    ∃ p2, create_document sampleProj "New Scene" p1Item "" "" true none "NEW" "TS" "MID" =
        .ok (p2, some (newItemOf "New Scene" true "NEW" "TS")) ∧
      newItemOf "New Scene" true "NEW" "TS" =
        .mk "NEW" (if "New Scene" = "" then "Untitled" else "New Scene") "Text"
          (some "TS") (some "TS") true .nil ∧
      (∀ it2 ∈ all_items sampleProj,
        it2.uuid ≠ (newItemOf "New Scene" true "NEW" "TS").uuid) ∧
      find_by_uuid p2 p1Item.uuid =
        some (snocChild p1Item (newItemOf "New Scene" true "NEW" "TS")) ∧
      (snocChild p1Item (newItemOf "New Scene" true "NEW" "TS")).children =
        BItems.snoc p1Item.children (newItemOf "New Scene" true "NEW" "TS") ∧
      find_by_path p2 (pathOf (["Draft"] ++ [p1Item.title])
        (newItemOf "New Scene" true "NEW" "TS")) =
        some (newItemOf "New Scene" true "NEW" "TS") ∧
      ∃ pe pe2, findBinderElem p1Item.uuid sampleProj.scrivx = some pe ∧
        findBinderElem p1Item.uuid p2.scrivx = some pe2 ∧
        binderChildCount pe2 = binderChildCount pe + 1 :=
  (c3_create_document sampleProj "New Scene" p1Item "" "" true "NEW" "TS" "MID"
    ["Draft"]).2.2 (by decide) (by decide) (by decide) (by decide) (by decide) (by decide)

end Scriv
